import Mathlib

/-!
Verification of the editor operation queue (`useEditorQueue`) of
tinyland-composables.

The queue is embedded as an explicit state machine.  JavaScript executes each
synchronous segment of code atomically and suspends only at `await` points and
timer expiry, so the machine's events are exactly those segments:

* `submit`     — a call to `enqueue(operation, debounce)`;
* `timerFire`  — a debounce `setTimeout` callback running (only enabled once
                 the recorded deadline has been reached);
* `complete`   — the settling of the currently awaited `operation.execute()`
                 promise together with the synchronous continuation of the
                 `processQueue` loop (callbacks, error recording, removal of
                 the queue front, and the start of the next iteration up to
                 its own `await`);
* `cancelOp`, `cancelAllOps`, `clearErrorLog`, `flushAll` — the corresponding
  public methods, each of which is fully synchronous;
* `tick`       — the passage of wall-clock time.

Caller-supplied closures (`execute`, `onSuccess`, `onError`) are opaque to the
queue; each operation therefore carries its observable behaviour as data: the
settled outcome of its action and whether each callback, when invoked, returns
or throws.  Invocations of the action and of the callbacks are recorded in
logs so that temporal statements ("the action is never executed") can be made.
-/

namespace TinylandComposables

/-- The closed set of operation kinds: `'save' | 'autosave' | 'publish' | 'draft'`. -/
inductive Kind where
  | save
  | autosave
  | publish
  | draft
deriving DecidableEq, Repr

/-- The settled outcome of an operation's `execute()` promise: fulfilled, or
rejected with a value (rejection values are modelled as naturals). -/
inductive ActionResult where
  | ok
  | err (v : Nat)
deriving DecidableEq, Repr

/-- Observable behaviour of an `onSuccess`/`onError` callback when invoked:
it either returns normally or throws a value. -/
inductive Callback where
  | ret
  | raise (v : Nat)
deriving DecidableEq, Repr

/-- `QueuedOperation` of the source.  `id` stands for the string produced by
`crypto.randomUUID()`; uniqueness of ids is stated as an explicit hypothesis
where a theorem needs it.  `priority` is optional with default `0`, exactly as
in the source (`priority?: number`).  The last three fields are the data view
of the opaque closures. -/
structure QueuedOperation where
  id : Nat
  type : Kind
  priority : Option Int
  createdAt : Nat
  result : ActionResult
  onSuccess : Option Callback
  onError : Option Callback
deriving DecidableEq, Repr

/-- An entry of the error history: `{ id: operation.id, error, timestamp: Date.now() }`. -/
structure ErrorEntry where
  id : Nat
  error : Nat
  timestamp : Nat
deriving DecidableEq, Repr

/-- `EditorQueueState` of the source. `lastProcessed : string | null`. -/
structure EditorQueueState where
  queue : List QueuedOperation
  isProcessing : Bool
  lastProcessed : Option Nat
  errors : List ErrorEntry
deriving DecidableEq, Repr

/-- Construction-time configuration: `{ debounceMs?: number; maxErrors?: number }`
after the defaults `?? 1500` and `?? 10` have been applied.  `maxErrors` is
kept as an integer because the source computes `MAX_ERRORS - 1` and feeds it
to `Array.prototype.slice`, whose semantics for negative ends matter. -/
structure Config where
  debounceMs : Nat
  maxErrors : Int
deriving DecidableEq, Repr

/-- The defaults of `useEditorQueue`. -/
def defaultConfig : Config := { debounceMs := 1500, maxErrors := 10 }

/-- A `debounceTimers` entry: the kind (map key), the operation the pending
`setTimeout` callback will insert, and the time at which the timeout expires. -/
abbrev TimerEntry := Kind × QueuedOperation × Nat

/-- `Map.get` on `debounceTimers`. -/
def timersGet (ts : List TimerEntry) (k : Kind) : Option (QueuedOperation × Nat) :=
  (ts.find? (fun e => e.1 == k)).map (fun e => e.2)

/-- `Map.set` on `debounceTimers`: replace the entry for the key in place if
present (JavaScript `Map.set` keeps the original insertion position),
otherwise append. -/
def timersSet (ts : List TimerEntry) (k : Kind) (v : QueuedOperation × Nat) :
    List TimerEntry :=
  match ts with
  | [] => [(k, v)]
  | e :: rest => if e.1 = k then (k, v) :: rest else e :: timersSet rest k v

/-- `Map.delete` on `debounceTimers`. -/
def timersDelete (ts : List TimerEntry) (k : Kind) : List TimerEntry :=
  ts.filter (fun e => !(e.1 == k))

/-- The whole world of one queue instance: the reactive `state` object, the
`debounceTimers` map, plus semantic instrumentation — `executing` holds the
local `operation` variable of each live `processQueue` loop instance that is
suspended on `await operation.execute()`; the three logs record invocations
of actions and callbacks; `now` is the current time (`Date.now()`). -/
structure QueueWorld where
  state : EditorQueueState
  debounceTimers : List TimerEntry
  executing : List QueuedOperation
  execLog : List Nat
  successLog : List Nat
  errorLog : List (Nat × Nat)
  now : Nat
deriving DecidableEq, Repr

/-- The `$derived` accessor `pending` (the `pendingCount` of the spec):
`state.queue.length`. -/
def pending (w : QueueWorld) : Nat := w.state.queue.length

/-- The `$derived` accessor `hasErrors`: `state.errors.length > 0`. -/
def hasErrors (w : QueueWorld) : Bool := w.state.errors.length > 0

/-- The `$derived` accessor `isIdle`: `!state.isProcessing && state.queue.length === 0`. -/
def isIdle (w : QueueWorld) : Bool := !w.state.isProcessing && w.state.queue.length == 0

/-- `op.priority ?? 0`, as written at both use sites in the source. -/
def priorityOf (op : QueuedOperation) : Int := op.priority.getD 0

/-- `l.slice(0, e)` of JavaScript `Array.prototype.slice`: a negative end
counts from the end of the array; the result is clamped to the array. -/
def jsSliceEnd {α : Type} (l : List α) (e : Int) : List α :=
  let n : Int := l.length
  let stop : Int := if e < 0 then max (n + e) 0 else min e n
  l.take stop.toNat

/-- The insertion performed by `addToQueue`:
`insertIndex = queue.findIndex(op => (op.priority ?? 0) < (operation.priority ?? 0))`,
append when `-1`, otherwise splice in at `insertIndex`. -/
def insertByPriority (q : List QueuedOperation) (op : QueuedOperation) :
    List QueuedOperation :=
  match q.findIdx? (fun o => priorityOf o < priorityOf op) with
  | none => q ++ [op]
  | some i => q.take i ++ op :: q.drop i

/-- The synchronous prefix of a call to `processQueue()`: the re-entrancy
guard (`if (state.isProcessing || state.queue.length === 0) return`), taking
the lock, and the first loop iteration up to `await operation.execute()` —
which reads `state.queue[0]` and invokes its action. -/
def processQueueStart (w : QueueWorld) : QueueWorld :=
  if w.state.isProcessing then w
  else
    match w.state.queue with
    | [] => w
    | op :: _ =>
      { w with
        state := { w.state with isProcessing := true }
        executing := [op]
        execLog := w.execLog ++ [op.id] }

/-- `addToQueue`: insert with priority ordering, then call `processQueue()`. -/
def addToQueue (w : QueueWorld) (op : QueuedOperation) : QueueWorld :=
  processQueueStart
    { w with state := { w.state with queue := insertByPriority w.state.queue op } }

/-- `state.queue = state.queue.slice(1)` followed by the next turn of the
`while` loop: either the loop exits (`state.isProcessing = false`) or the next
front operation's action is invoked and the loop suspends on its `await`.
`restExec` is the rest of the `executing` instrumentation list. -/
def finishIteration (w : QueueWorld) (restExec : List QueuedOperation) : QueueWorld :=
  match w.state.queue.drop 1 with
  | [] =>
      { w with
        state := { w.state with queue := [], isProcessing := false }
        executing := restExec }
  | next :: rest =>
      { w with
        state := { w.state with queue := next :: rest }
        executing := next :: restExec
        execLog := w.execLog ++ [next.id] }

/-- The `catch` block of the loop body, entered with the caught value `v`:
`operation.onError?.(error)` followed by the `state.errors` update.  When the
`onError` callback itself throws, the exception escapes `processQueue` — the
loop instance dies with `state` untouched past the `onError` invocation, and
in particular `isProcessing` is never reset. -/
def handleCatch (cfg : Config) (w : QueueWorld) (op : QueuedOperation)
    (restExec : List QueuedOperation) (v : Nat) : QueueWorld :=
  match op.onError with
  | some (.raise _) =>
      { w with errorLog := w.errorLog ++ [(op.id, v)], executing := restExec }
  | some .ret =>
      finishIteration
        { w with
          errorLog := w.errorLog ++ [(op.id, v)]
          state := { w.state with
            errors := ⟨op.id, v, w.now⟩ :: jsSliceEnd w.state.errors (cfg.maxErrors - 1) } }
        restExec
  | none =>
      finishIteration
        { w with
          state := { w.state with
            errors := ⟨op.id, v, w.now⟩ :: jsSliceEnd w.state.errors (cfg.maxErrors - 1) } }
        restExec

/-- The body of one loop iteration once the awaited `operation.execute()`
promise has settled: `try { …; operation.onSuccess?.();
state.lastProcessed = operation.id } catch (error) { … }` and the rest of
the loop body. -/
def resumeOp (cfg : Config) (w : QueueWorld) (op : QueuedOperation)
    (restExec : List QueuedOperation) : QueueWorld :=
  match op.result with
  | .ok =>
    match op.onSuccess with
    | some (.raise v) =>
        handleCatch cfg { w with successLog := w.successLog ++ [op.id] } op restExec v
    | some .ret =>
        finishIteration
          { w with
            successLog := w.successLog ++ [op.id]
            state := { w.state with lastProcessed := some op.id } } restExec
    | none =>
        finishIteration
          { w with state := { w.state with lastProcessed := some op.id } } restExec
  | .err v => handleCatch cfg w op restExec v

/-- The resumption of a `processQueue` loop instance: `none` when no loop
instance is suspended on an `await`. -/
def processQueueResume (cfg : Config) (w : QueueWorld) : Option QueueWorld :=
  match w.executing with
  | [] => none
  | op :: restExec => some (resumeOp cfg w op restExec)

/-- `enqueue(operation, debounce)`: build `fullOperation` (fresh `createdAt`,
defaulted priority), and either schedule a debounced insertion — `Map.set`
overwrites, which subsumes the preceding `clearTimeout` of an existing
same-kind timer — or insert immediately. -/
def enqueue (cfg : Config) (w : QueueWorld) (op : QueuedOperation) (debounce : Bool) :
    QueueWorld :=
  let fullOperation : QueuedOperation :=
    { op with createdAt := w.now, priority := some (priorityOf op) }
  if debounce then
    { w with
      debounceTimers :=
        timersSet w.debounceTimers op.type (fullOperation, w.now + cfg.debounceMs) }
  else
    addToQueue w fullOperation

/-- A debounce `setTimeout` callback firing for kind `k`: enabled only when a
timer for `k` exists and its deadline has been reached; it runs
`addToQueue(fullOperation); debounceTimers.delete(type)`. -/
def fireTimer (w : QueueWorld) (k : Kind) : Option QueueWorld :=
  match timersGet w.debounceTimers k with
  | none => none
  | some (op, deadline) =>
      if w.now < deadline then none
      else
        let w1 := addToQueue w op
        some { w1 with debounceTimers := timersDelete w1.debounceTimers k }

/-- `cancel(operationId)`: filter the operation out of the queue. -/
def cancel (w : QueueWorld) (operationId : Nat) : QueueWorld :=
  { w with
    state := { w.state with queue := w.state.queue.filter (fun op => op.id ≠ operationId) } }

/-- `cancelAll()`: clear every debounce timer and empty the queue. -/
def cancelAll (w : QueueWorld) : QueueWorld :=
  { w with debounceTimers := [], state := { w.state with queue := [] } }

/-- `clearErrors()`. -/
def clearErrors (w : QueueWorld) : QueueWorld :=
  { w with state := { w.state with errors := [] } }

/-- `flush()`: `debounceTimers.forEach(clearTimeout); debounceTimers.clear();
return processQueue()`.  Note that the timers are cancelled, not fired: the
operations they held are discarded. -/
def flush (w : QueueWorld) : QueueWorld :=
  processQueueStart { w with debounceTimers := [] }

/-- The events of the state machine. -/
inductive Ev where
  | submit (op : QueuedOperation) (debounce : Bool)
  | timerFire (k : Kind)
  | complete
  | cancelOp (i : Nat)
  | cancelAllOps
  | clearErrorLog
  | flushAll
  | tick (d : Nat)
deriving DecidableEq, Repr

/-- One atomic step; `none` when the event is not enabled in this world. -/
def step (cfg : Config) (w : QueueWorld) : Ev → Option QueueWorld
  | .submit op d => some (enqueue cfg w op d)
  | .timerFire k => fireTimer w k
  | .complete => processQueueResume cfg w
  | .cancelOp i => some (cancel w i)
  | .cancelAllOps => some (cancelAll w)
  | .clearErrorLog => some (clearErrors w)
  | .flushAll => some (flush w)
  | .tick d => some { w with now := w.now + d }

/-- Run a list of events. -/
def run (cfg : Config) (w : QueueWorld) : List Ev → Option QueueWorld
  | [] => some w
  | e :: es =>
    match step cfg w e with
    | none => none
    | some w1 => run cfg w1 es

/-- The freshly constructed queue instance. -/
def init : QueueWorld :=
  { state := { queue := [], isProcessing := false, lastProcessed := none, errors := [] }
    debounceTimers := []
    executing := []
    execLog := []
    successLog := []
    errorLog := []
    now := 0 }

/-- A world the queue instance can actually be in. -/
def Reachable (cfg : Config) (w : QueueWorld) : Prop :=
  ∃ es, run cfg init es = some w

/-- `true` iff the loop body's control reaches the `catch` block for this
operation: its action rejects, or its action fulfills and its `onSuccess`
callback throws. -/
def reachesCatch (op : QueuedOperation) : Bool :=
  match op.result, op.onSuccess with
  | .err _, _ => true
  | .ok, some (.raise _) => true
  | .ok, _ => false

/-- `true` iff the operation's `onError` callback, when invoked, throws. -/
def onErrorRaises (op : QueuedOperation) : Bool :=
  match op.onError with
  | some (.raise _) => true
  | _ => false

/-- An operation that cannot kill the processing loop: it does not reach the
`catch` block with an `onError` callback that itself throws. -/
def benign (op : QueuedOperation) : Bool := !(reachesCatch op && onErrorRaises op)

/-- At most one `processQueue` loop instance exists (is suspended on its
`await`), and none exists while `isProcessing` is false: the invariant the
re-entrancy guard maintains. -/
def ProcInv (w : QueueWorld) : Prop :=
  w.executing.length ≤ 1 ∧ (w.state.isProcessing = false → w.executing = [])

/-- The pending queue is sorted by descending (defaulted) priority; among
equal priorities, earlier entries stay earlier. -/
def QueueSorted (w : QueueWorld) : Prop :=
  w.state.queue.Pairwise (fun a b => priorityOf b ≤ priorityOf a)

/-- The error history never exceeds `max MAX_ERRORS 1` entries (for a cap of
at least 1 this is the cap itself; a cap of 0 — or a negative one — still
keeps one entry, because `slice(0, MAX_ERRORS - 1)` has a negative end). -/
def ErrBound (cfg : Config) (w : QueueWorld) : Prop :=
  w.state.errors.length ≤ max cfg.maxErrors.toNat 1

/-- `isProcessing` is stuck at `true` while no loop instance survives: the
state after an exception escapes the loop body.  The guard then blocks every
future `processQueue` call. -/
def Stalled (w : QueueWorld) : Prop :=
  w.state.isProcessing = true ∧ w.executing = []

/-- No pending operation and no pending debounce timer.  Absent new
submissions this is permanent, which is the content of `cancelAll`'s
guarantee. -/
def Drained (w : QueueWorld) : Prop :=
  w.state.queue = [] ∧ w.debounceTimers = []

/-- `true` exactly for `submit` events. -/
def Ev.isSubmitEv : Ev → Bool
  | .submit _ _ => true
  | _ => false

/-- Idle with nothing scheduled: empty queue, no debounce timers, the loop
lock free and no suspended loop instance. -/
def IdleQuiet (w : QueueWorld) : Prop :=
  w.state.queue = [] ∧ w.debounceTimers = [] ∧ w.state.isProcessing = false ∧
    w.executing = []

/-- The id occurs nowhere the machine could still execute it from: not in the
queue, not suspended mid-execution, not held by a debounce timer. -/
def idFresh (w : QueueWorld) (i : Nat) : Prop :=
  (∀ op ∈ w.state.queue, op.id ≠ i) ∧ (∀ op ∈ w.executing, op.id ≠ i) ∧
    ∀ e ∈ w.debounceTimers, e.2.1.id ≠ i

/-- On top of `idFresh`: no action with this id was ever invoked, and no
`onSuccess`/`onError` callback of it was ever called. -/
def neverTouched (w : QueueWorld) (i : Nat) : Prop :=
  idFresh w i ∧ i ∉ w.execLog ∧ i ∉ w.successLog ∧ ∀ v, (i, v) ∉ w.errorLog

/-- Events that do not submit an operation with id `i`. -/
def EvAvoids (i : Nat) : Ev → Prop
  | .submit op _ => op.id ≠ i
  | _ => True

/-! ### Concrete scenarios used by the claim-level theorems -/

/-- A successful operation with no callbacks, of a given id and priority. -/
def plainOp (i : Nat) (p : Int) : QueuedOperation :=
  { id := i, type := .save, priority := some p, createdAt := 0,
    result := .ok, onSuccess := none, onError := none }

/-- A debounced autosave operation (id 7) for the flush scenario. -/
def c1op : QueuedOperation :=
  { id := 7, type := .autosave, priority := none, createdAt := 0,
    result := .ok, onSuccess := some .ret, onError := none }

/-- Four non-debounced submissions with priorities `[0, 10, 0, 5]` (ids
1, 2, 3, 4 in submission order), followed by the settling of every action
started: the interleaving produced when all four `enqueue` calls happen in
one synchronous tick. -/
def c2evs : List Ev :=
  [.submit (plainOp 1 0) false, .submit (plainOp 2 10) false,
   .submit (plainOp 3 0) false, .submit (plainOp 4 5) false,
   .complete, .complete, .complete, .complete]

/-- A debounced autosave operation for the coalescing witness. -/
def c3op (i : Nat) : QueuedOperation :=
  { id := i, type := .autosave, priority := none, createdAt := 0,
    result := .ok, onSuccess := some .ret, onError := some .ret }

/-- A queue constructed with `maxErrors: 0`. -/
def cap0Config : Config := { debounceMs := 1500, maxErrors := 0 }

/-- Rejects with 5; its `onError` returns normally. -/
def c4e1 : QueuedOperation :=
  { id := 1, type := .save, priority := none, createdAt := 0,
    result := .err 5, onSuccess := none, onError := some .ret }

/-- Rejects with 6; its `onError` itself throws 9. -/
def c4e2 : QueuedOperation :=
  { id := 2, type := .save, priority := none, createdAt := 0,
    result := .err 6, onSuccess := none, onError := some (.raise 9) }

/-- A successful operation queued behind the two failing ones. -/
def c4e3 : QueuedOperation :=
  { id := 3, type := .save, priority := none, createdAt := 0,
    result := .ok, onSuccess := none, onError := none }

/-- Submit the three operations on a `maxErrors := 0` queue, then settle the
two actions that get started. -/
def c4evs : List Ev :=
  [.submit c4e1 false, .submit c4e2 false, .submit c4e3 false,
   .complete, .complete]

/-- Fulfills, `onSuccess` throws 5, `onError` throws 6. -/
def c8bad : QueuedOperation :=
  { id := 9, type := .save, priority := none, createdAt := 0,
    result := .ok, onSuccess := some (.raise 5), onError := some (.raise 6) }

/-- Fulfills, `onSuccess` throws 5, `onError` returns normally. -/
def c8good : QueuedOperation :=
  { id := 9, type := .save, priority := none, createdAt := 0,
    result := .ok, onSuccess := some (.raise 5), onError := some .ret }

/-- The world after submitting `c8good` without debounce: its action has been
invoked and the loop is awaiting it. -/
def c8w : QueueWorld := enqueue defaultConfig init c8good false

/-- Rejects with 7, no callbacks. -/
def c9op : QueuedOperation :=
  { id := 1, type := .save, priority := none, createdAt := 0,
    result := .err 7, onSuccess := none, onError := none }

/-- The `maxErrors := 0` world awaiting `c9op`. -/
def c9w : QueueWorld := enqueue cap0Config init c9op false

/-- Rejects with 4 and its `onError` throws 9. -/
def c10op : QueuedOperation :=
  { id := 3, type := .save, priority := none, createdAt := 0,
    result := .err 4, onSuccess := none, onError := some (.raise 9) }

/-- The world awaiting `c10op`. -/
def c10w : QueueWorld := enqueue defaultConfig init c10op false

/-- `c10op` as it sits in `c10w.executing` (enriched by `enqueue`). -/
def c10opFull : QueuedOperation :=
  { id := 3, type := .save, priority := some 0, createdAt := 0,
    result := .err 4, onSuccess := none, onError := some (.raise 9) }

/-- A debounced autosave operation (id 5) for the cancelAll scenario. -/
def c6op : QueuedOperation :=
  { id := 5, type := .autosave, priority := none, createdAt := 0,
    result := .ok, onSuccess := some .ret, onError := some .ret }

/-- `c8good` as it sits in `c8w.executing` (enriched by `enqueue`). -/
def c8goodFull : QueuedOperation :=
  { id := 9, type := .save, priority := some 0, createdAt := 0,
    result := .ok, onSuccess := some (.raise 5), onError := some .ret }

/-- `c9op` as it sits in `c9w.executing` (enriched by `enqueue`). -/
def c9opFull : QueuedOperation :=
  { id := 1, type := .save, priority := some 0, createdAt := 0,
    result := .err 7, onSuccess := none, onError := none }

/-- The `maxErrors := 0` world awaiting `c4e1`. -/
def c4w : QueueWorld := enqueue cap0Config init c4e1 false

/-- `c4e1` as it sits in `c4w.executing` (enriched by `enqueue`). -/
def c4e1Full : QueuedOperation :=
  { id := 1, type := .save, priority := some 0, createdAt := 0,
    result := .err 5, onSuccess := none, onError := some .ret }

/-- The world after submitting `c6op` debounced and cancelling everything. -/
def c6w2 : QueueWorld := cancelAll (enqueue defaultConfig init c6op true)

/-- `c6w2` after 2000 ms and a `flush()` call. -/
def c6w3 : QueueWorld := flush { c6w2 with now := c6w2.now + 2000 }

/-- Three debounced autosaves (ids 1, 2, 3), 10 ms apart. -/
def c3evs : List Ev :=
  [.submit (c3op 1) true, .tick 10, .submit (c3op 2) true, .tick 10,
   .submit (c3op 3) true]

/-- The world after the three coalescing submissions. -/
def c3w5 : QueueWorld := (run defaultConfig init c3evs).getD init

/-- `c3w5` after the debounce interval elapses and the autosave timer
fires. -/
def c3w6 : QueueWorld :=
  (run defaultConfig c3w5 [.tick 1500, .timerFire .autosave]).getD init

/-! ### Basic lemmas about the list-level operations -/

theorem insertByPriority_nil (op : QueuedOperation) : insertByPriority [] op = [op] := rfl

theorem insertByPriority_cons (x : QueuedOperation) (xs : List QueuedOperation)
    (op : QueuedOperation) :
    insertByPriority (x :: xs) op =
      if priorityOf x < priorityOf op then op :: x :: xs
      else x :: insertByPriority xs op := by
  unfold insertByPriority
  rw [List.findIdx?_cons]
  by_cases hp : priorityOf x < priorityOf op
  · rw [if_pos (by simpa using hp), if_pos hp]
    simp
  · rw [if_neg (by simpa using hp), if_neg hp]
    rw [show (1 : Nat) = 0 + 1 from rfl, List.findIdx?_succ]
    cases h : List.findIdx? (fun o => decide (priorityOf o < priorityOf op)) xs with
    | none => simp [h]
    | some i => simp [h]

theorem mem_insertByPriority {y op : QueuedOperation} {q : List QueuedOperation}
    (h : y ∈ insertByPriority q op) : y ∈ q ∨ y = op := by
  induction q with
  | nil =>
    rw [insertByPriority_nil] at h
    right
    simpa using h
  | cons x xs ih =>
    rw [insertByPriority_cons] at h
    split at h
    · rcases List.mem_cons.mp h with rfl | h
      · right; rfl
      · left; exact h
    · rcases List.mem_cons.mp h with rfl | h
      · left; exact List.mem_cons_self _ _
      · rcases ih h with h' | h'
        · left; exact List.mem_cons_of_mem _ h'
        · right; exact h'

theorem countP_insertByPriority (q : List QueuedOperation) (op : QueuedOperation)
    (p : QueuedOperation → Bool) :
    (insertByPriority q op).countP p = q.countP p + (if p op then 1 else 0) := by
  induction q with
  | nil => simp [insertByPriority_nil, List.countP_cons]
  | cons x xs ih =>
    rw [insertByPriority_cons]
    split
    · simp [List.countP_cons]
    · simp [List.countP_cons, ih]
      omega

theorem length_insertByPriority (q : List QueuedOperation) (op : QueuedOperation) :
    (insertByPriority q op).length = q.length + 1 := by
  induction q with
  | nil => simp [insertByPriority_nil]
  | cons x xs ih =>
    rw [insertByPriority_cons]
    split <;> simp [ih]

/-- The insertion of `addToQueue` in closed form: the new operation lands
exactly at the first position whose entry has strictly smaller priority
(appending when there is none). -/
theorem insertByPriority_eq_takeWhile_dropWhile (q : List QueuedOperation)
    (op : QueuedOperation) :
    insertByPriority q op =
      q.takeWhile (fun o => !decide (priorityOf o < priorityOf op)) ++
        op :: q.dropWhile (fun o => !decide (priorityOf o < priorityOf op)) := by
  induction q with
  | nil => simp [insertByPriority_nil]
  | cons x xs ih =>
    rw [insertByPriority_cons]
    by_cases hp : priorityOf x < priorityOf op
    · simp [hp, List.takeWhile_cons, List.dropWhile_cons]
    · simp [hp, List.takeWhile_cons, List.dropWhile_cons, ih]

/-- Descending-priority order with FIFO tie-breaking is preserved by the
insertion of `addToQueue`. -/
theorem pairwise_insertByPriority {q : List QueuedOperation} (op : QueuedOperation)
    (h : q.Pairwise (fun a b => priorityOf b ≤ priorityOf a)) :
    (insertByPriority q op).Pairwise (fun a b => priorityOf b ≤ priorityOf a) := by
  induction q with
  | nil => simp [insertByPriority_nil]
  | cons x xs ih =>
    rw [insertByPriority_cons]
    rcases List.pairwise_cons.mp h with ⟨hx, hxs⟩
    by_cases hp : priorityOf x < priorityOf op
    · rw [if_pos hp]
      refine List.pairwise_cons.mpr ⟨?_, h⟩
      intro y hy
      rcases List.mem_cons.mp hy with rfl | hy
      · exact le_of_lt hp
      · exact le_trans (hx y hy) (le_of_lt hp)
    · rw [if_neg hp]
      refine List.pairwise_cons.mpr ⟨?_, ih hxs⟩
      intro y hy
      rcases mem_insertByPriority hy with h' | h'
      · exact hx y h'
      · subst h'; exact le_of_not_lt hp

theorem timersGet_cons (e : TimerEntry) (ts : List TimerEntry) (k : Kind) :
    timersGet (e :: ts) k = if e.1 = k then some e.2 else timersGet ts k := by
  by_cases h : e.1 = k <;> simp [timersGet, List.find?_cons, h]

theorem timersGet_set (ts : List TimerEntry) (k : Kind) (v : QueuedOperation × Nat) :
    timersGet (timersSet ts k v) k = some v := by
  induction ts with
  | nil => simp [timersSet, timersGet_cons]
  | cons e rest ih =>
    by_cases h : e.1 = k
    · rw [timersSet, if_pos h, timersGet_cons]
      simp
    · rw [timersSet, if_neg h, timersGet_cons, if_neg h]
      exact ih

theorem timersSet_set (ts : List TimerEntry) (k : Kind) (v v' : QueuedOperation × Nat) :
    timersSet (timersSet ts k v) k v' = timersSet ts k v' := by
  induction ts with
  | nil => simp [timersSet]
  | cons e rest ih =>
    by_cases h : e.1 = k
    · simp [timersSet, h]
    · simp [timersSet, h, ih]

theorem mem_timersSet {e : TimerEntry} {ts : List TimerEntry} {k : Kind}
    {v : QueuedOperation × Nat} (h : e ∈ timersSet ts k v) : e ∈ ts ∨ e = (k, v) := by
  induction ts with
  | nil =>
    rw [timersSet] at h
    right
    simpa using h
  | cons x rest ih =>
    by_cases hx : x.1 = k
    · rw [timersSet, if_pos hx] at h
      rcases List.mem_cons.mp h with rfl | h
      · right; rfl
      · left; exact List.mem_cons_of_mem _ h
    · rw [timersSet, if_neg hx] at h
      rcases List.mem_cons.mp h with rfl | h
      · left; exact List.mem_cons_self _ _
      · rcases ih h with h' | h'
        · left; exact List.mem_cons_of_mem _ h'
        · right; exact h'

theorem timersDelete_cons (e : TimerEntry) (ts : List TimerEntry) (k : Kind) :
    timersDelete (e :: ts) k =
      if e.1 = k then timersDelete ts k else e :: timersDelete ts k := by
  by_cases h : e.1 = k <;> simp [timersDelete, List.filter_cons, h]

theorem timersGet_delete (ts : List TimerEntry) (k : Kind) :
    timersGet (timersDelete ts k) k = none := by
  induction ts with
  | nil => rfl
  | cons e rest ih =>
    rw [timersDelete_cons]
    by_cases h : e.1 = k
    · rw [if_pos h]; exact ih
    · rw [if_neg h, timersGet_cons, if_neg h]; exact ih

theorem mem_timersDelete {e : TimerEntry} {ts : List TimerEntry} {k : Kind}
    (h : e ∈ timersDelete ts k) : e ∈ ts :=
  List.mem_of_mem_filter h

/-- One failure record is prepended and the history is truncated with
`errors.slice(0, MAX_ERRORS - 1)`; the resulting length never exceeds
`max MAX_ERRORS 1` (a configured cap of `0`, via JavaScript's negative slice
end, keeps exactly the newest entry). -/
theorem length_errorsUpdate {α : Type} (m : Int) (l : List α) (x : α)
    (h : l.length ≤ max m.toNat 1) :
    (x :: jsSliceEnd l (m - 1)).length ≤ max m.toNat 1 := by
  simp only [jsSliceEnd, List.length_cons, List.length_take]
  split <;> omega

/-! ### The re-entrancy invariant -/

theorem procInv_init : ProcInv init := by
  constructor <;> simp [init]

theorem procInv_processQueueStart {w : QueueWorld} (h : ProcInv w) :
    ProcInv (processQueueStart w) := by
  unfold processQueueStart
  split
  · exact h
  · split
    · exact h
    · exact ⟨by simp, by simp⟩

theorem procInv_addToQueue {w : QueueWorld} (op : QueuedOperation) (h : ProcInv w) :
    ProcInv (addToQueue w op) :=
  procInv_processQueueStart h

theorem procInv_finishIteration {w : QueueWorld} (hp : w.state.isProcessing = true)
    (r : List QueuedOperation) (hr : r = []) : ProcInv (finishIteration w r) := by
  subst hr
  unfold finishIteration
  split
  · exact ⟨by simp, by simp⟩
  · exact ⟨by simp, by simp [hp]⟩

theorem procInv_handleCatch {cfg : Config} {w : QueueWorld} {op : QueuedOperation}
    (hp : w.state.isProcessing = true) (v : Nat) :
    ProcInv (handleCatch cfg w op [] v) := by
  unfold handleCatch
  split
  · exact ⟨by simp, by simp⟩
  · exact procInv_finishIteration (by simpa using hp) [] rfl
  · exact procInv_finishIteration (by simpa using hp) [] rfl

theorem processQueueResume_cons {cfg : Config} {w : QueueWorld} {op : QueuedOperation}
    {rest : List QueuedOperation} (hex : w.executing = op :: rest) :
    processQueueResume cfg w = some (resumeOp cfg w op rest) := by
  unfold processQueueResume
  rw [hex]

theorem processQueueResume_nil {cfg : Config} {w : QueueWorld}
    (hex : w.executing = []) : processQueueResume cfg w = none := by
  unfold processQueueResume
  rw [hex]

theorem procInv_resumeOp {cfg : Config} {w : QueueWorld} {op : QueuedOperation}
    (hp : w.state.isProcessing = true) : ProcInv (resumeOp cfg w op []) := by
  unfold resumeOp
  split
  · split
    · exact procInv_handleCatch (by simpa using hp) _
    · exact procInv_finishIteration (by simpa using hp) [] rfl
    · exact procInv_finishIteration (by simpa using hp) [] rfl
  · exact procInv_handleCatch (by simpa using hp) _

theorem procInv_resume {cfg : Config} {w w' : QueueWorld} (h : ProcInv w)
    (hs : processQueueResume cfg w = some w') : ProcInv w' := by
  cases hex : w.executing with
  | nil => rw [processQueueResume_nil hex] at hs; cases hs
  | cons op rest =>
    rw [processQueueResume_cons hex] at hs
    have hrest : rest = [] := by
      have h1 := h.1
      rw [hex] at h1
      simpa using h1
    have hp : w.state.isProcessing = true := by
      by_contra hh
      have h2 := h.2 (by simpa using hh)
      rw [hex] at h2
      cases h2
    subst hrest
    injection hs with hs
    subst hs
    exact procInv_resumeOp hp

theorem procInv_step {cfg : Config} {w w' : QueueWorld} {e : Ev} (h : ProcInv w)
    (hs : step cfg w e = some w') : ProcInv w' := by
  cases e with
  | submit op d =>
    simp only [step] at hs
    injection hs with hs
    subst hs
    unfold enqueue
    split
    · exact h
    · exact procInv_addToQueue _ h
  | timerFire k =>
    simp only [step] at hs
    unfold fireTimer at hs
    cases hg : timersGet w.debounceTimers k with
    | none => simp only [hg] at hs; cases hs
    | some e' =>
      obtain ⟨op, dl⟩ := e'
      simp only [hg] at hs
      split at hs
      · cases hs
      · injection hs with hs
        subst hs
        have hA := procInv_addToQueue (w := w) op h
        exact ⟨hA.1, hA.2⟩
  | complete =>
    simp only [step] at hs
    exact procInv_resume h hs
  | cancelOp i =>
    simp only [step] at hs
    injection hs with hs
    subst hs
    exact h
  | cancelAllOps =>
    simp only [step] at hs
    injection hs with hs
    subst hs
    exact h
  | clearErrorLog =>
    simp only [step] at hs
    injection hs with hs
    subst hs
    exact h
  | flushAll =>
    simp only [step] at hs
    injection hs with hs
    subst hs
    exact procInv_processQueueStart h
  | tick d =>
    simp only [step] at hs
    injection hs with hs
    subst hs
    exact h

/-- Generic induction over a run whose events all satisfy `E`. -/
theorem run_induction {cfg : Config} (P : QueueWorld → Prop) (E : Ev → Prop)
    (hstep : ∀ w e w', P w → E e → step cfg w e = some w' → P w') :
    ∀ {es : List Ev} {w w' : QueueWorld},
      P w → (∀ e ∈ es, E e) → run cfg w es = some w' → P w' := by
  intro es
  induction es with
  | nil =>
    intro w w' h _ hr
    rw [run] at hr
    injection hr with hr
    subst hr
    exact h
  | cons e es ih =>
    intro w w' h hE hr
    rw [run] at hr
    cases hstep1 : step cfg w e with
    | none => rw [hstep1] at hr; cases hr
    | some w1 =>
      rw [hstep1] at hr
      exact ih (hstep w e w1 h (hE e (List.mem_cons_self _ _)) hstep1)
        (fun e' he' => hE e' (List.mem_cons_of_mem _ he')) hr

theorem procInv_reachable {cfg : Config} {w : QueueWorld} (h : Reachable cfg w) :
    ProcInv w := by
  obtain ⟨es, hr⟩ := h
  exact run_induction ProcInv (fun _ => True)
    (fun w1 e w2 h1 _ hs => procInv_step h1 hs) procInv_init (fun _ _ => trivial) hr

/-! ### Small rewriting lemmas about the transformers -/

theorem processQueueStart_of_processing {w : QueueWorld}
    (h : w.state.isProcessing = true) : processQueueStart w = w := by
  unfold processQueueStart
  rw [if_pos h]

theorem processQueueStart_of_queue_nil {w : QueueWorld}
    (h : w.state.queue = []) : processQueueStart w = w := by
  unfold processQueueStart
  split
  · rfl
  · rw [h]

theorem finishIteration_queue (w : QueueWorld) (r : List QueuedOperation) :
    (finishIteration w r).state.queue = w.state.queue.drop 1 := by
  unfold finishIteration
  split <;> rename_i heq <;> rw [heq]

theorem finishIteration_timers (w : QueueWorld) (r : List QueuedOperation) :
    (finishIteration w r).debounceTimers = w.debounceTimers := by
  unfold finishIteration
  split <;> rfl

theorem handleCatch_queue (cfg : Config) (w : QueueWorld) (op : QueuedOperation)
    (r : List QueuedOperation) (v : Nat) :
    (handleCatch cfg w op r v).state.queue = w.state.queue ∨
      (handleCatch cfg w op r v).state.queue = w.state.queue.drop 1 := by
  unfold handleCatch
  split
  · left; rfl
  · right; rw [finishIteration_queue]
  · right; rw [finishIteration_queue]

theorem handleCatch_timers (cfg : Config) (w : QueueWorld) (op : QueuedOperation)
    (r : List QueuedOperation) (v : Nat) :
    (handleCatch cfg w op r v).debounceTimers = w.debounceTimers := by
  unfold handleCatch
  split
  · rfl
  · rw [finishIteration_timers]
  · rw [finishIteration_timers]

/-! ### The descending-priority ordering invariant -/

theorem queueSorted_init : QueueSorted init := List.Pairwise.nil

theorem queueSorted_processQueueStart {w : QueueWorld} (h : QueueSorted w) :
    QueueSorted (processQueueStart w) := by
  unfold processQueueStart
  split
  · exact h
  · split
    · exact h
    · exact h

theorem queueSorted_addToQueue {w : QueueWorld} (op : QueuedOperation)
    (h : QueueSorted w) : QueueSorted (addToQueue w op) :=
  queueSorted_processQueueStart (pairwise_insertByPriority op h)

theorem queueSorted_drop {w : QueueWorld} (h : QueueSorted w) :
    (w.state.queue.drop 1).Pairwise (fun a b => priorityOf b ≤ priorityOf a) :=
  h.sublist (List.drop_sublist 1 _)

theorem queueSorted_finishIteration {w : QueueWorld} (r : List QueuedOperation)
    (h : QueueSorted w) : QueueSorted (finishIteration w r) := by
  unfold finishIteration
  split
  · exact List.Pairwise.nil
  · rename_i next rest heq
    have h2 := queueSorted_drop h
    rw [heq] at h2
    exact h2

theorem queueSorted_handleCatch {cfg : Config} {w : QueueWorld} {op : QueuedOperation}
    {r : List QueuedOperation} {v : Nat} (h : QueueSorted w) :
    QueueSorted (handleCatch cfg w op r v) := by
  unfold handleCatch
  split
  · exact h
  · exact queueSorted_finishIteration r h
  · exact queueSorted_finishIteration r h

theorem queueSorted_resumeOp {cfg : Config} {w : QueueWorld} {op : QueuedOperation}
    {r : List QueuedOperation} (h : QueueSorted w) :
    QueueSorted (resumeOp cfg w op r) := by
  unfold resumeOp
  split
  · split
    · exact queueSorted_handleCatch h
    · exact queueSorted_finishIteration r h
    · exact queueSorted_finishIteration r h
  · exact queueSorted_handleCatch h

theorem queueSorted_step {cfg : Config} {w w' : QueueWorld} {e : Ev}
    (h : QueueSorted w) (hs : step cfg w e = some w') : QueueSorted w' := by
  cases e with
  | submit op d =>
    simp only [step] at hs
    injection hs with hs
    subst hs
    unfold enqueue
    split
    · exact h
    · exact queueSorted_addToQueue _ h
  | timerFire k =>
    simp only [step] at hs
    unfold fireTimer at hs
    cases hg : timersGet w.debounceTimers k with
    | none => simp only [hg] at hs; cases hs
    | some e' =>
      obtain ⟨op, dl⟩ := e'
      simp only [hg] at hs
      split at hs
      · cases hs
      · injection hs with hs
        subst hs
        exact queueSorted_addToQueue (w := w) op h
  | complete =>
    simp only [step] at hs
    cases hex : w.executing with
    | nil => rw [processQueueResume_nil hex] at hs; cases hs
    | cons op rest =>
      rw [processQueueResume_cons hex] at hs
      injection hs with hs
      subst hs
      exact queueSorted_resumeOp h
  | cancelOp i =>
    simp only [step] at hs
    injection hs with hs
    subst hs
    exact h.sublist (List.filter_sublist _)
  | cancelAllOps =>
    simp only [step] at hs
    injection hs with hs
    subst hs
    exact List.Pairwise.nil
  | clearErrorLog =>
    simp only [step] at hs
    injection hs with hs
    subst hs
    exact h
  | flushAll =>
    simp only [step] at hs
    injection hs with hs
    subst hs
    exact queueSorted_processQueueStart h
  | tick d =>
    simp only [step] at hs
    injection hs with hs
    subst hs
    exact h

theorem queueSorted_reachable {cfg : Config} {w : QueueWorld} (h : Reachable cfg w) :
    QueueSorted w := by
  obtain ⟨es, hr⟩ := h
  exact run_induction QueueSorted (fun _ => True)
    (fun w1 e w2 h1 _ hs => queueSorted_step h1 hs) queueSorted_init (fun _ _ => trivial) hr

/-! ### The error-history bound -/

theorem errBound_init (cfg : Config) : ErrBound cfg init := by
  simp [ErrBound, init]

theorem errBound_processQueueStart {cfg : Config} {w : QueueWorld}
    (h : ErrBound cfg w) : ErrBound cfg (processQueueStart w) := by
  unfold processQueueStart
  split
  · exact h
  · split
    · exact h
    · exact h

theorem errBound_finishIteration {cfg : Config} {w : QueueWorld}
    (r : List QueuedOperation) (h : ErrBound cfg w) :
    ErrBound cfg (finishIteration w r) := by
  unfold finishIteration
  split
  · exact h
  · exact h

theorem errBound_handleCatch {cfg : Config} {w : QueueWorld} {op : QueuedOperation}
    {r : List QueuedOperation} {v : Nat} (h : ErrBound cfg w) :
    ErrBound cfg (handleCatch cfg w op r v) := by
  unfold handleCatch
  split
  · exact h
  · exact errBound_finishIteration r (length_errorsUpdate cfg.maxErrors w.state.errors _ h)
  · exact errBound_finishIteration r (length_errorsUpdate cfg.maxErrors w.state.errors _ h)

theorem errBound_resumeOp {cfg : Config} {w : QueueWorld} {op : QueuedOperation}
    {r : List QueuedOperation} (h : ErrBound cfg w) :
    ErrBound cfg (resumeOp cfg w op r) := by
  unfold resumeOp
  split
  · split
    · exact errBound_handleCatch h
    · exact errBound_finishIteration r h
    · exact errBound_finishIteration r h
  · exact errBound_handleCatch h

theorem errBound_step {cfg : Config} {w w' : QueueWorld} {e : Ev}
    (h : ErrBound cfg w) (hs : step cfg w e = some w') : ErrBound cfg w' := by
  cases e with
  | submit op d =>
    simp only [step] at hs
    injection hs with hs
    subst hs
    unfold enqueue
    split
    · exact h
    · exact errBound_processQueueStart h
  | timerFire k =>
    simp only [step] at hs
    unfold fireTimer at hs
    cases hg : timersGet w.debounceTimers k with
    | none => simp only [hg] at hs; cases hs
    | some e' =>
      obtain ⟨op, dl⟩ := e'
      simp only [hg] at hs
      split at hs
      · cases hs
      · injection hs with hs
        subst hs
        exact errBound_processQueueStart h
  | complete =>
    simp only [step] at hs
    cases hex : w.executing with
    | nil => rw [processQueueResume_nil hex] at hs; cases hs
    | cons op rest =>
      rw [processQueueResume_cons hex] at hs
      injection hs with hs
      subst hs
      exact errBound_resumeOp h
  | cancelOp i =>
    simp only [step] at hs
    injection hs with hs
    subst hs
    exact h
  | cancelAllOps =>
    simp only [step] at hs
    injection hs with hs
    subst hs
    exact h
  | clearErrorLog =>
    simp only [step] at hs
    injection hs with hs
    subst hs
    simp [ErrBound, clearErrors]
  | flushAll =>
    simp only [step] at hs
    injection hs with hs
    subst hs
    exact errBound_processQueueStart h
  | tick d =>
    simp only [step] at hs
    injection hs with hs
    subst hs
    exact h

theorem errBound_reachable {cfg : Config} {w : QueueWorld} (h : Reachable cfg w) :
    ErrBound cfg w := by
  obtain ⟨es, hr⟩ := h
  exact run_induction (ErrBound cfg) (fun _ => True)
    (fun w1 e w2 h1 _ hs => errBound_step h1 hs) (errBound_init cfg) (fun _ _ => trivial) hr

/-! ### Permanently stalled worlds (a dead `processQueue` loop) -/

theorem addToQueue_of_processing {w : QueueWorld} (op : QueuedOperation)
    (h : w.state.isProcessing = true) :
    addToQueue w op =
      { w with state := { w.state with queue := insertByPriority w.state.queue op } } := by
  unfold addToQueue
  exact processQueueStart_of_processing h

theorem stalled_step {cfg : Config} {w w' : QueueWorld} {e : Ev}
    (h : Stalled w) (hs : step cfg w e = some w') :
    Stalled w' ∧ w'.execLog = w.execLog := by
  cases e with
  | submit op d =>
    simp only [step] at hs
    injection hs with hs
    subst hs
    unfold enqueue
    split
    · exact ⟨⟨h.1, h.2⟩, rfl⟩
    · rw [addToQueue_of_processing _ h.1]
      exact ⟨⟨h.1, h.2⟩, rfl⟩
  | timerFire k =>
    simp only [step] at hs
    unfold fireTimer at hs
    cases hg : timersGet w.debounceTimers k with
    | none => simp only [hg] at hs; cases hs
    | some e' =>
      obtain ⟨op, dl⟩ := e'
      simp only [hg] at hs
      split at hs
      · cases hs
      · injection hs with hs
        subst hs
        rw [addToQueue_of_processing (w := w) op h.1]
        exact ⟨⟨h.1, h.2⟩, rfl⟩
  | complete =>
    simp only [step] at hs
    rw [processQueueResume_nil h.2] at hs
    cases hs
  | cancelOp i =>
    simp only [step] at hs
    injection hs with hs
    subst hs
    exact ⟨⟨h.1, h.2⟩, rfl⟩
  | cancelAllOps =>
    simp only [step] at hs
    injection hs with hs
    subst hs
    exact ⟨⟨h.1, h.2⟩, rfl⟩
  | clearErrorLog =>
    simp only [step] at hs
    injection hs with hs
    subst hs
    exact ⟨⟨h.1, h.2⟩, rfl⟩
  | flushAll =>
    simp only [step] at hs
    injection hs with hs
    subst hs
    unfold flush
    have hflush := processQueueStart_of_processing
      (w := { w with debounceTimers := [] }) (by exact h.1)
    rw [hflush]
    exact ⟨⟨h.1, h.2⟩, rfl⟩
  | tick d =>
    simp only [step] at hs
    injection hs with hs
    subst hs
    exact ⟨⟨h.1, h.2⟩, rfl⟩

/-- Once the loop has died with the guard still held, no event — not even a
new submission — ever invokes another action: `execLog` is frozen and the
stall is permanent. -/
theorem stalled_run {cfg : Config} {es : List Ev} {w w' : QueueWorld}
    (h : Stalled w) (hr : run cfg w es = some w') :
    Stalled w' ∧ w'.execLog = w.execLog := by
  have := run_induction (fun x => Stalled x ∧ x.execLog = w.execLog)
    (fun _ => True)
    (fun w1 e w2 h1 _ hs =>
      ⟨(stalled_step h1.1 hs).1, ((stalled_step h1.1 hs).2).trans h1.2⟩)
    ⟨h, rfl⟩ (fun _ _ => trivial) hr
  exact this

/-! ### Drained worlds (empty queue, no timers) -/

theorem drained_handleCatch {cfg : Config} {w : QueueWorld} {op : QueuedOperation}
    {r : List QueuedOperation} {v : Nat} (h : Drained w) :
    Drained (handleCatch cfg w op r v) := by
  unfold handleCatch
  split
  · exact ⟨h.1, h.2⟩
  · constructor
    · rw [finishIteration_queue]
      simp only [h.1]
      rfl
    · rw [finishIteration_timers]
      exact h.2
  · constructor
    · rw [finishIteration_queue]
      simp only [h.1]
      rfl
    · rw [finishIteration_timers]
      exact h.2

theorem drained_finishIteration {w : QueueWorld} (r : List QueuedOperation)
    (h : Drained w) : Drained (finishIteration w r) := by
  constructor
  · rw [finishIteration_queue]
    simp only [h.1]
    rfl
  · rw [finishIteration_timers]
    exact h.2

theorem drained_resumeOp {cfg : Config} {w : QueueWorld} {op : QueuedOperation}
    {r : List QueuedOperation} (h : Drained w) : Drained (resumeOp cfg w op r) := by
  unfold resumeOp
  split
  · split
    · exact drained_handleCatch ⟨h.1, h.2⟩
    · exact drained_finishIteration r ⟨h.1, h.2⟩
    · exact drained_finishIteration r ⟨h.1, h.2⟩
  · exact drained_handleCatch ⟨h.1, h.2⟩

theorem drained_step {cfg : Config} {w w' : QueueWorld} {e : Ev}
    (h : Drained w) (he : e.isSubmitEv = false) (hs : step cfg w e = some w') :
    Drained w' := by
  cases e with
  | submit op d => simp [Ev.isSubmitEv] at he
  | timerFire k =>
    simp only [step] at hs
    unfold fireTimer at hs
    rw [h.2] at hs
    simp [timersGet] at hs
  | complete =>
    simp only [step] at hs
    cases hex : w.executing with
    | nil => rw [processQueueResume_nil hex] at hs; cases hs
    | cons op rest =>
      rw [processQueueResume_cons hex] at hs
      injection hs with hs
      subst hs
      exact drained_resumeOp h
  | cancelOp i =>
    simp only [step] at hs
    injection hs with hs
    subst hs
    refine ⟨?_, h.2⟩
    show (w.state.queue.filter _) = []
    rw [h.1]
    rfl
  | cancelAllOps =>
    simp only [step] at hs
    injection hs with hs
    subst hs
    exact ⟨rfl, rfl⟩
  | clearErrorLog =>
    simp only [step] at hs
    injection hs with hs
    subst hs
    exact ⟨h.1, h.2⟩
  | flushAll =>
    simp only [step] at hs
    injection hs with hs
    subst hs
    unfold flush
    have hflush := processQueueStart_of_queue_nil
      (w := { w with debounceTimers := [] }) (by exact h.1)
    rw [hflush]
    exact ⟨h.1, rfl⟩
  | tick d =>
    simp only [step] at hs
    injection hs with hs
    subst hs
    exact ⟨h.1, h.2⟩

theorem drained_run {cfg : Config} {es : List Ev} {w w' : QueueWorld}
    (h : Drained w) (hE : ∀ e ∈ es, e.isSubmitEv = false)
    (hr : run cfg w es = some w') : Drained w' :=
  run_induction Drained (fun e => e.isSubmitEv = false)
    (fun w1 e w2 h1 he hs => drained_step h1 he hs) h hE hr

/-! ### Idle worlds stay idle without submissions -/

theorem idleQuiet_step {cfg : Config} {w w' : QueueWorld} {e : Ev}
    (h : IdleQuiet w) (he : e.isSubmitEv = false) (hs : step cfg w e = some w') :
    IdleQuiet w' := by
  obtain ⟨hq, ht, hp, hx⟩ := h
  cases e with
  | submit op d => simp [Ev.isSubmitEv] at he
  | timerFire k =>
    simp only [step] at hs
    unfold fireTimer at hs
    rw [ht] at hs
    simp [timersGet] at hs
  | complete =>
    simp only [step] at hs
    rw [processQueueResume_nil hx] at hs
    cases hs
  | cancelOp i =>
    simp only [step] at hs
    injection hs with hs
    subst hs
    refine ⟨?_, ht, hp, hx⟩
    show (w.state.queue.filter _) = []
    rw [hq]
    rfl
  | cancelAllOps =>
    simp only [step] at hs
    injection hs with hs
    subst hs
    exact ⟨rfl, rfl, hp, hx⟩
  | clearErrorLog =>
    simp only [step] at hs
    injection hs with hs
    subst hs
    exact ⟨hq, ht, hp, hx⟩
  | flushAll =>
    simp only [step] at hs
    injection hs with hs
    subst hs
    unfold flush
    have hflush := processQueueStart_of_queue_nil
      (w := { w with debounceTimers := [] }) (by exact hq)
    rw [hflush]
    exact ⟨hq, rfl, hp, hx⟩
  | tick d =>
    simp only [step] at hs
    injection hs with hs
    subst hs
    exact ⟨hq, ht, hp, hx⟩

theorem idleQuiet_run {cfg : Config} {es : List Ev} {w w' : QueueWorld}
    (h : IdleQuiet w) (hE : ∀ e ∈ es, e.isSubmitEv = false)
    (hr : run cfg w es = some w') : IdleQuiet w' :=
  run_induction IdleQuiet (fun e => e.isSubmitEv = false)
    (fun w1 e w2 h1 he hs => idleQuiet_step h1 he hs) h hE hr

theorem isIdle_of_idleQuiet {w : QueueWorld} (h : IdleQuiet w) : isIdle w = true := by
  simp [isIdle, h.1, h.2.2.1]

/-! ### Ids absent from the world are never executed nor called back -/

theorem timersGet_mem {ts : List TimerEntry} {k : Kind} {op : QueuedOperation}
    {dl : Nat} (h : timersGet ts k = some (op, dl)) : ∃ e ∈ ts, e.2.1 = op := by
  unfold timersGet at h
  rcases Option.map_eq_some'.mp h with ⟨e, hfind, hsnd⟩
  exact ⟨e, List.mem_of_find?_eq_some hfind, by rw [hsnd]⟩

theorem neverTouched_processQueueStart {w : QueueWorld} {i : Nat}
    (h : neverTouched w i) : neverTouched (processQueueStart w) i := by
  obtain ⟨⟨hq, hx, ht⟩, he, hsu, her⟩ := h
  unfold processQueueStart
  split
  · exact ⟨⟨hq, hx, ht⟩, he, hsu, her⟩
  · split
    · exact ⟨⟨hq, hx, ht⟩, he, hsu, her⟩
    · rename_i op rest heq
      have hop : op.id ≠ i := hq op (by rw [heq]; exact List.mem_cons_self _ _)
      refine ⟨⟨hq, ?_, ht⟩, ?_, hsu, her⟩
      · intro o ho
        rw [List.mem_singleton] at ho
        subst ho
        exact hop
      · intro hmem
        rcases List.mem_append.mp hmem with hm | hm
        · exact he hm
        · rw [List.mem_singleton] at hm
          exact hop hm.symm

theorem neverTouched_addToQueue {w : QueueWorld} {op : QueuedOperation} {i : Nat}
    (hop : op.id ≠ i) (h : neverTouched w i) : neverTouched (addToQueue w op) i := by
  apply neverTouched_processQueueStart
  obtain ⟨⟨hq, hx, ht⟩, he, hsu, her⟩ := h
  refine ⟨⟨?_, hx, ht⟩, he, hsu, her⟩
  intro o ho
  rcases mem_insertByPriority ho with h' | h'
  · exact hq o h'
  · subst h'
    exact hop

theorem neverTouched_finishIteration {w : QueueWorld} {r : List QueuedOperation}
    {i : Nat} (hr : ∀ o ∈ r, o.id ≠ i) (h : neverTouched w i) :
    neverTouched (finishIteration w r) i := by
  obtain ⟨⟨hq, hx, ht⟩, he, hsu, her⟩ := h
  have hdrop : ∀ o ∈ w.state.queue.drop 1, o.id ≠ i :=
    fun o ho => hq o (List.mem_of_mem_drop ho)
  unfold finishIteration
  split
  · exact ⟨⟨by simp, hr, ht⟩, he, hsu, her⟩
  · rename_i next rest heq
    have hnext : next.id ≠ i := by
      apply hdrop
      rw [heq]
      exact List.mem_cons_self _ _
    refine ⟨⟨?_, ?_, ht⟩, ?_, hsu, her⟩
    · intro o ho
      apply hdrop
      rw [heq]
      exact ho
    · intro o ho
      rcases List.mem_cons.mp ho with rfl | ho
      · exact hnext
      · exact hr o ho
    · intro hmem
      rcases List.mem_append.mp hmem with hm | hm
      · exact he hm
      · rw [List.mem_singleton] at hm
        exact hnext hm.symm

theorem neverTouched_handleCatch {cfg : Config} {w : QueueWorld}
    {op : QueuedOperation} {r : List QueuedOperation} {v : Nat} {i : Nat}
    (hop : op.id ≠ i) (hr : ∀ o ∈ r, o.id ≠ i) (h : neverTouched w i) :
    neverTouched (handleCatch cfg w op r v) i := by
  obtain ⟨⟨hq, hx, ht⟩, he, hsu, her⟩ := h
  have herr : ∀ u, (i, u) ∉ w.errorLog ++ [(op.id, v)] := by
    intro u hmem
    rcases List.mem_append.mp hmem with hm | hm
    · exact her u hm
    · rw [List.mem_singleton] at hm
      exact hop (congrArg Prod.fst hm).symm
  unfold handleCatch
  split
  · exact ⟨⟨hq, hr, ht⟩, he, hsu, herr⟩
  · exact neverTouched_finishIteration hr ⟨⟨hq, hx, ht⟩, he, hsu, herr⟩
  · exact neverTouched_finishIteration hr ⟨⟨hq, hx, ht⟩, he, hsu, her⟩

theorem neverTouched_resumeOp {cfg : Config} {w : QueueWorld}
    {op : QueuedOperation} {r : List QueuedOperation} {i : Nat}
    (hop : op.id ≠ i) (hr : ∀ o ∈ r, o.id ≠ i) (h : neverTouched w i) :
    neverTouched (resumeOp cfg w op r) i := by
  obtain ⟨⟨hq, hx, ht⟩, he, hsu, her⟩ := h
  have hsu2 : i ∉ w.successLog ++ [op.id] := by
    intro hmem
    rcases List.mem_append.mp hmem with hm | hm
    · exact hsu hm
    · rw [List.mem_singleton] at hm
      exact hop hm.symm
  unfold resumeOp
  split
  · split
    · exact neverTouched_handleCatch hop hr ⟨⟨hq, hx, ht⟩, he, hsu2, her⟩
    · exact neverTouched_finishIteration hr ⟨⟨hq, hx, ht⟩, he, hsu2, her⟩
    · exact neverTouched_finishIteration hr ⟨⟨hq, hx, ht⟩, he, hsu, her⟩
  · exact neverTouched_handleCatch hop hr ⟨⟨hq, hx, ht⟩, he, hsu, her⟩

theorem neverTouched_step {cfg : Config} {w w' : QueueWorld} {e : Ev} {i : Nat}
    (h : neverTouched w i) (hE : EvAvoids i e) (hs : step cfg w e = some w') :
    neverTouched w' i := by
  cases e with
  | submit op d =>
    simp only [step] at hs
    injection hs with hs
    subst hs
    have hop : op.id ≠ i := hE
    unfold enqueue
    split
    · obtain ⟨⟨hq, hx, ht⟩, he, hsu, her⟩ := h
      refine ⟨⟨hq, hx, ?_⟩, he, hsu, her⟩
      intro e' he'
      rcases mem_timersSet he' with hm | hm
      · exact ht e' hm
      · subst hm
        exact hop
    · exact neverTouched_addToQueue hop h
  | timerFire k =>
    simp only [step] at hs
    unfold fireTimer at hs
    cases hg : timersGet w.debounceTimers k with
    | none => simp only [hg] at hs; cases hs
    | some e' =>
      obtain ⟨op, dl⟩ := e'
      simp only [hg] at hs
      split at hs
      · cases hs
      · injection hs with hs
        subst hs
        obtain ⟨eT, hmemT, hfst⟩ := timersGet_mem hg
        have hop : op.id ≠ i := by
          rw [← hfst]
          exact h.1.2.2 eT hmemT
        obtain ⟨⟨hq, hx, ht⟩, he, hsu, her⟩ := neverTouched_addToQueue hop h
        refine ⟨⟨hq, hx, ?_⟩, he, hsu, her⟩
        intro e2 he2
        exact ht e2 (mem_timersDelete he2)
  | complete =>
    simp only [step] at hs
    cases hex : w.executing with
    | nil => rw [processQueueResume_nil hex] at hs; cases hs
    | cons op rest =>
      rw [processQueueResume_cons hex] at hs
      injection hs with hs
      subst hs
      have hx := h.1.2.1
      rw [hex] at hx
      have hop : op.id ≠ i := hx op (List.mem_cons_self _ _)
      have hrest : ∀ o ∈ rest, o.id ≠ i := fun o ho => hx o (List.mem_cons_of_mem _ ho)
      exact neverTouched_resumeOp hop hrest h
  | cancelOp j =>
    simp only [step] at hs
    injection hs with hs
    subst hs
    obtain ⟨⟨hq, hx, ht⟩, he, hsu, her⟩ := h
    refine ⟨⟨?_, hx, ht⟩, he, hsu, her⟩
    intro o ho
    exact hq o (List.mem_of_mem_filter ho)
  | cancelAllOps =>
    simp only [step] at hs
    injection hs with hs
    subst hs
    obtain ⟨⟨hq, hx, ht⟩, he, hsu, her⟩ := h
    exact ⟨⟨by simp [cancelAll], hx, by simp [cancelAll]⟩, he, hsu, her⟩
  | clearErrorLog =>
    simp only [step] at hs
    injection hs with hs
    subst hs
    obtain ⟨⟨hq, hx, ht⟩, he, hsu, her⟩ := h
    exact ⟨⟨hq, hx, ht⟩, he, hsu, her⟩
  | flushAll =>
    simp only [step] at hs
    injection hs with hs
    subst hs
    apply neverTouched_processQueueStart
    obtain ⟨⟨hq, hx, ht⟩, he, hsu, her⟩ := h
    exact ⟨⟨hq, hx, by simp⟩, he, hsu, her⟩
  | tick d =>
    simp only [step] at hs
    injection hs with hs
    subst hs
    obtain ⟨⟨hq, hx, ht⟩, he, hsu, her⟩ := h
    exact ⟨⟨hq, hx, ht⟩, he, hsu, her⟩

/-- An operation whose id is nowhere in the world is never executed and never
has a callback invoked, along any continuation that does not submit that id
again. -/
theorem neverTouched_run {cfg : Config} {es : List Ev} {w w' : QueueWorld} {i : Nat}
    (h : neverTouched w i) (hE : ∀ e ∈ es, EvAvoids i e)
    (hr : run cfg w es = some w') : neverTouched w' i :=
  run_induction (neverTouched · i) (EvAvoids i)
    (fun w1 e w2 h1 he hs => neverTouched_step h1 he hs) h hE hr

/-! ### Rewriting equations for the loop body -/

theorem finishIteration_nil_eq {w : QueueWorld} {r : List QueuedOperation}
    (h : w.state.queue.drop 1 = []) :
    finishIteration w r =
      { w with
        state := { w.state with queue := [], isProcessing := false }
        executing := r } := by
  unfold finishIteration
  rw [h]

theorem finishIteration_cons_eq {w : QueueWorld} {r next : _} {rest2 : List QueuedOperation}
    (h : w.state.queue.drop 1 = next :: rest2) :
    finishIteration w r =
      { w with
        state := { w.state with queue := next :: rest2 }
        executing := next :: r
        execLog := w.execLog ++ [next.id] } := by
  unfold finishIteration
  rw [h]

theorem handleCatch_raise_eq {cfg : Config} {w : QueueWorld} {op : QueuedOperation}
    {r : List QueuedOperation} {v u : Nat} (hoe : op.onError = some (.raise u)) :
    handleCatch cfg w op r v =
      { w with errorLog := w.errorLog ++ [(op.id, v)], executing := r } := by
  unfold handleCatch
  rw [hoe]

theorem handleCatch_ret_eq {cfg : Config} {w : QueueWorld} {op : QueuedOperation}
    {r : List QueuedOperation} {v : Nat} (hoe : op.onError = some .ret) :
    handleCatch cfg w op r v =
      finishIteration
        { w with
          errorLog := w.errorLog ++ [(op.id, v)]
          state := { w.state with
            errors := ⟨op.id, v, w.now⟩ :: jsSliceEnd w.state.errors (cfg.maxErrors - 1) } }
        r := by
  unfold handleCatch
  rw [hoe]

theorem handleCatch_none_eq {cfg : Config} {w : QueueWorld} {op : QueuedOperation}
    {r : List QueuedOperation} {v : Nat} (hoe : op.onError = none) :
    handleCatch cfg w op r v =
      finishIteration
        { w with
          state := { w.state with
            errors := ⟨op.id, v, w.now⟩ :: jsSliceEnd w.state.errors (cfg.maxErrors - 1) } }
        r := by
  unfold handleCatch
  rw [hoe]

theorem resumeOp_err_eq {cfg : Config} {w : QueueWorld} {op : QueuedOperation}
    {r : List QueuedOperation} {v : Nat} (hres : op.result = .err v) :
    resumeOp cfg w op r = handleCatch cfg w op r v := by
  unfold resumeOp
  rw [hres]

theorem resumeOp_ok_none_eq {cfg : Config} {w : QueueWorld} {op : QueuedOperation}
    {r : List QueuedOperation} (hres : op.result = .ok) (hsu : op.onSuccess = none) :
    resumeOp cfg w op r =
      finishIteration
        { w with state := { w.state with lastProcessed := some op.id } } r := by
  unfold resumeOp
  rw [hres, hsu]

theorem resumeOp_ok_ret_eq {cfg : Config} {w : QueueWorld} {op : QueuedOperation}
    {r : List QueuedOperation} (hres : op.result = .ok) (hsu : op.onSuccess = some .ret) :
    resumeOp cfg w op r =
      finishIteration
        { w with
          successLog := w.successLog ++ [op.id]
          state := { w.state with lastProcessed := some op.id } } r := by
  unfold resumeOp
  rw [hres, hsu]

theorem resumeOp_ok_raise_eq {cfg : Config} {w : QueueWorld} {op : QueuedOperation}
    {r : List QueuedOperation} {v : Nat} (hres : op.result = .ok)
    (hsu : op.onSuccess = some (.raise v)) :
    resumeOp cfg w op r =
      handleCatch cfg { w with successLog := w.successLog ++ [op.id] } op r v := by
  unfold resumeOp
  rw [hres, hsu]

/-- A loop-friendly operation always hands control back to the loop: its
resumption is `finishIteration` of a world with the same queue, lock and
action log. -/
theorem resumeOp_benign_eq (cfg : Config) {w : QueueWorld} {op : QueuedOperation}
    {r : List QueuedOperation} (hb : benign op = true) :
    ∃ w1 : QueueWorld, resumeOp cfg w op r = finishIteration w1 r ∧
      w1.state.queue = w.state.queue ∧ w1.state.isProcessing = w.state.isProcessing ∧
      w1.execLog = w.execLog := by
  cases hres : op.result with
  | ok =>
    cases hsu : op.onSuccess with
    | none => exact ⟨_, resumeOp_ok_none_eq hres hsu, rfl, rfl, rfl⟩
    | some cb =>
      cases cb with
      | ret => exact ⟨_, resumeOp_ok_ret_eq hres hsu, rfl, rfl, rfl⟩
      | raise v =>
        have hoe : onErrorRaises op = false := by
          have hcatch : reachesCatch op = true := by simp [reachesCatch, hres, hsu]
          simpa [benign, hcatch] using hb
        cases hoe2 : op.onError with
        | none =>
          exact ⟨_, (resumeOp_ok_raise_eq hres hsu).trans (handleCatch_none_eq hoe2),
            rfl, rfl, rfl⟩
        | some cb2 =>
          cases cb2 with
          | ret =>
            exact ⟨_, (resumeOp_ok_raise_eq hres hsu).trans (handleCatch_ret_eq hoe2),
              rfl, rfl, rfl⟩
          | raise u => simp [onErrorRaises, hoe2] at hoe
  | err v =>
    have hoe : onErrorRaises op = false := by
      have hcatch : reachesCatch op = true := by simp [reachesCatch, hres]
      simpa [benign, hcatch] using hb
    cases hoe2 : op.onError with
    | none =>
      exact ⟨_, (resumeOp_err_eq hres).trans (handleCatch_none_eq hoe2), rfl, rfl, rfl⟩
    | some cb2 =>
      cases cb2 with
      | ret =>
        exact ⟨_, (resumeOp_err_eq hres).trans (handleCatch_ret_eq hoe2), rfl, rfl, rfl⟩
      | raise u => simp [onErrorRaises, hoe2] at hoe

theorem run_cons_of_step {cfg : Config} {w w1 : QueueWorld} {e : Ev} {es : List Ev}
    (hs : step cfg w e = some w1) : run cfg w (e :: es) = run cfg w1 es := by
  rw [run, hs]

/-- Draining the loop: if the front operation is being executed and every
pending operation is loop-friendly, then `queue.length` successive
completions execute every remaining pending operation and leave the queue
idle. -/
theorem drain_benign {cfg : Config} :
    ∀ (rest : List QueuedOperation) (op : QueuedOperation) (w : QueueWorld),
      w.state.queue = op :: rest → w.executing = [op] →
      w.state.isProcessing = true →
      (∀ o ∈ w.state.queue, benign o = true) →
      ∃ w', run cfg w (List.replicate (op :: rest).length .complete) = some w' ∧
        w'.state.queue = [] ∧ w'.state.isProcessing = false ∧ w'.executing = [] ∧
        (∀ x ∈ w.execLog, x ∈ w'.execLog) ∧ ∀ o ∈ rest, o.id ∈ w'.execLog := by
  intro rest
  induction rest with
  | nil =>
    intro op w hq hex hp hben
    obtain ⟨w1, heq, hw1q, hw1p, hw1l⟩ :=
      resumeOp_benign_eq cfg (w := w) (r := [])
        (hben op (by rw [hq]; exact List.mem_cons_self _ _))
    have hdrop : w1.state.queue.drop 1 = [] := by
      rw [hw1q, hq]
      rfl
    have hstep1 : step cfg w .complete = some (finishIteration w1 []) := by
      show processQueueResume cfg w = _
      rw [processQueueResume_cons hex, heq]
    refine ⟨finishIteration w1 [], ?_, ?_, ?_, ?_, ?_, ?_⟩
    · rw [show List.replicate (List.length [op]) Ev.complete = [Ev.complete] from rfl]
      rw [run_cons_of_step hstep1]
      rfl
    · rw [finishIteration_nil_eq hdrop]
    · rw [finishIteration_nil_eq hdrop]
    · rw [finishIteration_nil_eq hdrop]
    · intro x hx
      rw [finishIteration_nil_eq hdrop]
      show x ∈ w1.execLog
      rw [hw1l]
      exact hx
    · intro o ho
      cases ho
  | cons o2 rest' ih =>
    intro op w hq hex hp hben
    have hbop : benign op = true := hben op (by rw [hq]; exact List.mem_cons_self _ _)
    obtain ⟨w1, heq, hw1q, hw1p, hw1l⟩ :=
      resumeOp_benign_eq cfg (w := w) (r := []) hbop
    have hdrop : w1.state.queue.drop 1 = o2 :: rest' := by
      rw [hw1q, hq]
      rfl
    have hstep1 : step cfg w .complete = some (finishIteration w1 []) := by
      show processQueueResume cfg w = _
      rw [processQueueResume_cons hex, heq]
    have hfin := finishIteration_cons_eq (r := ([] : List QueuedOperation)) hdrop
    set w2 : QueueWorld :=
      { w1 with
        state := { w1.state with queue := o2 :: rest' }
        executing := [o2]
        execLog := w1.execLog ++ [o2.id] } with hw2
    have hben2 : ∀ o ∈ w2.state.queue, benign o = true := by
      intro o ho
      rw [hw2] at ho
      apply hben
      rw [hq]
      exact List.mem_cons_of_mem _ ho
    obtain ⟨w', hrun', hq', hp', hx', hlog', hids'⟩ :=
      ih o2 w2 (by rw [hw2]) (by rw [hw2])
        (by rw [hw2]; show w1.state.isProcessing = true; rw [hw1p]; exact hp) hben2
    refine ⟨w', ?_, hq', hp', hx', ?_, ?_⟩
    · rw [show List.replicate (List.length (op :: o2 :: rest')) Ev.complete =
          Ev.complete :: List.replicate (List.length (o2 :: rest')) Ev.complete from rfl]
      rw [run_cons_of_step hstep1, hfin]
      exact hrun'
    · intro x hx2
      apply hlog'
      rw [hw2]
      show x ∈ w1.execLog ++ [o2.id]
      rw [hw1l]
      exact List.mem_append_left _ hx2
    · intro o ho
      rcases List.mem_cons.mp ho with rfl | ho
      · apply hlog'
        rw [hw2]
        show o.id ∈ w1.execLog ++ [o.id]
        exact List.mem_append_right _ (List.mem_singleton.mpr rfl)
      · exact hids' o ho

theorem jsSliceEnd_neg_one_of_le_one {α : Type} (l : List α) (h : l.length ≤ 1) :
    jsSliceEnd l (0 - 1) = [] := by
  simp only [jsSliceEnd]
  have h0 : ((0 : Int) - 1) < 0 := by norm_num
  rw [if_pos h0]
  have hz : (max ((l.length : Int) + (0 - 1)) 0).toNat = 0 := by omega
  rw [hz, List.take_zero]

theorem finishIteration_errors (w : QueueWorld) (r : List QueuedOperation) :
    (finishIteration w r).state.errors = w.state.errors := by
  unfold finishIteration
  split <;> rfl

theorem finishIteration_lastProcessed (w : QueueWorld) (r : List QueuedOperation) :
    (finishIteration w r).state.lastProcessed = w.state.lastProcessed := by
  unfold finishIteration
  split <;> rfl

theorem finishIteration_errorLog (w : QueueWorld) (r : List QueuedOperation) :
    (finishIteration w r).errorLog = w.errorLog := by
  unfold finishIteration
  split <;> rfl

theorem finishIteration_successLog (w : QueueWorld) (r : List QueuedOperation) :
    (finishIteration w r).successLog = w.successLog := by
  unfold finishIteration
  split <;> rfl

theorem processQueueStart_queue (w : QueueWorld) :
    (processQueueStart w).state.queue = w.state.queue := by
  unfold processQueueStart
  split
  · rfl
  · split <;> rfl

theorem fireTimer_none_of_early {w : QueueWorld} {k : Kind} {op : QueuedOperation}
    {dl : Nat} (hget : timersGet w.debounceTimers k = some (op, dl))
    (hlt : w.now < dl) : fireTimer w k = none := by
  unfold fireTimer
  simp only [hget]
  rw [if_pos hlt]

theorem fireTimer_some_of_due {w : QueueWorld} {k : Kind} {op : QueuedOperation}
    {dl : Nat} (hget : timersGet w.debounceTimers k = some (op, dl))
    (hge : ¬ w.now < dl) :
    fireTimer w k = some
      { addToQueue w op with
        debounceTimers := timersDelete (addToQueue w op).debounceTimers k } := by
  unfold fireTimer
  simp only [hget]
  rw [if_neg hge]

theorem addToQueue_queue (w : QueueWorld) (op : QueuedOperation) :
    (addToQueue w op).state.queue = insertByPriority w.state.queue op :=
  processQueueStart_queue _

/-- Letting `t` milliseconds pass and the timer of kind `k` fire (its
deadline reached) inserts exactly the operation the slot held into the
pending queue, and clears the slot. -/
theorem tick_fire_inserts {cfg : Config} {w : QueueWorld} {k : Kind}
    {op : QueuedOperation} {dl t : Nat}
    (hget : timersGet w.debounceTimers k = some (op, dl))
    (hdue : ¬ w.now + t < dl) :
    ∀ w6, run cfg w [.tick t, .timerFire k] = some w6 →
      (∀ p : QueuedOperation → Bool,
        w6.state.queue.countP p = w.state.queue.countP p +
          (if p op then 1 else 0)) ∧
      timersGet w6.debounceTimers k = none := by
  intro w6 h6
  have hstep1 : step cfg w (.tick t) = some { w with now := w.now + t } := rfl
  rw [run_cons_of_step hstep1] at h6
  have hget2 : timersGet ({ w with now := w.now + t } : QueueWorld).debounceTimers k =
      some (op, dl) := hget
  have hfire := fireTimer_some_of_due hget2 (by exact hdue)
  have hstep2 : step cfg { w with now := w.now + t } (.timerFire k) =
      some { addToQueue { w with now := w.now + t } op with
        debounceTimers := timersDelete
          (addToQueue { w with now := w.now + t } op).debounceTimers k } := hfire
  rw [run_cons_of_step hstep2, run] at h6
  injection h6 with h6
  subst h6
  constructor
  · intro p
    have hq := addToQueue_queue { w with now := w.now + t } op
    show (addToQueue { w with now := w.now + t } op).state.queue.countP p = _
    rw [hq]
    exact countP_insertByPriority _ _ _
  · exact timersGet_delete _ _

theorem evAvoids_of_not_submit {i : Nat} {e : Ev} (h : e.isSubmitEv = false) :
    EvAvoids i e := by
  cases e with
  | submit op d => simp [Ev.isSubmitEv] at h
  | timerFire k => trivial
  | complete => trivial
  | cancelOp j => trivial
  | cancelAllOps => trivial
  | clearErrorLog => trivial
  | flushAll => trivial
  | tick d => trivial

/-! ### Claim-level theorems -/

/-- C1: the spec (and `flush`'s own doc comment, "Flush all debounced
operations immediately and process queue") promises that `flush()` fires
every pending debounce timer, so each debounced operation is inserted into
the queue and executed before the flush resolves.  The implementation instead
runs `clearTimeout` on every timer.  At the failing input — one debounced
autosave submitted, `flush()` called before the interval elapses — the timer
exists right before the flush, and after it there is no timer, an empty
queue, an empty action log and no callback invocation: the operation was
silently discarded, and the queue is idle so no processing pass will ever run
it. -/
theorem flush_discards_pending_debounce :
    (run defaultConfig init [.submit c1op true]).map
        (fun w => (timersGet w.debounceTimers .autosave).isSome) = some true ∧
    (run defaultConfig init [.submit c1op true, .flushAll]).map
        (fun w => (w.debounceTimers, w.state.queue, w.execLog, w.successLog, isIdle w)) =
      some ([], [], [], [], true) := by
  decide

/-- C2 counterexample: submitting priorities `[0, 10, 0, 5]` (ids 1, 2, 3, 4)
in one synchronous tick does not execute `[10, 5, 0, 0]` (ids
`[2, 4, 1, 3]`).  Processing starts the first priority-0 submission (id 1)
synchronously inside its own `enqueue`, before the others are submitted; and
when that action settles, `state.queue = state.queue.slice(1)` removes the
then-front priority-10 operation (id 2) without ever running it, after which
the loop re-executes id 1.  The actions invoked are ids `[1, 4, 1, 3]`:
execution begins with a priority-0 operation and the priority-10 operation
never executes at all. -/
theorem priority_execution_order_counterexample :
    (run defaultConfig init c2evs).map (fun w => w.execLog) = some [1, 4, 1, 3] ∧
    (run defaultConfig init c2evs).map (fun w => decide (2 ∈ w.execLog)) =
      some false := by
  decide

/-- C2 amended: the insertion rule itself holds — `addToQueue` places the new
operation exactly at the first position whose entry has strictly smaller
defaulted priority, appending at the end when there is none (the
takeWhile/dropWhile closed form) — and consequently the *pending queue* is,
in every reachable world, sorted by descending priority with FIFO
tie-breaking among equal priorities.  The claimed consequence about
*execution order* does not hold (see the counterexample): an operation whose
action already started is not displaced by later higher-priority
submissions, and a higher-priority operation inserted ahead of the executing
front is removed unexecuted by `slice(1)` when the front settles. -/
theorem insert_position_and_queue_sorted :
    (∀ (q : List QueuedOperation) (op : QueuedOperation),
      insertByPriority q op =
        q.takeWhile (fun o => !decide (priorityOf o < priorityOf op)) ++
          op :: q.dropWhile (fun o => !decide (priorityOf o < priorityOf op))) ∧
    ∀ (cfg : Config) (w : QueueWorld), Reachable cfg w →
      w.state.queue.Pairwise (fun x y => priorityOf y ≤ priorityOf x) :=
  ⟨insertByPriority_eq_takeWhile_dropWhile, fun _ _ h => queueSorted_reachable h⟩

/-- Witness for the amended C2 theorem at concrete inputs: a priority-10
operation is inserted ahead of a pending priority-0 one, and the initial
queue is sorted. -/
theorem insert_position_and_queue_sorted_witness :
    insertByPriority [plainOp 1 0] (plainOp 2 10) = [plainOp 2 10, plainOp 1 0] ∧
    init.state.queue.Pairwise (fun x y => priorityOf y ≤ priorityOf x) :=
  ⟨(insert_position_and_queue_sorted.1 [plainOp 1 0] (plainOp 2 10)).trans (by decide),
   insert_position_and_queue_sorted.2 defaultConfig init ⟨[], rfl⟩⟩

/-- C5: in every reachable world at most one operation is mid-execution
(`executing` never holds two operations), and whenever the `isProcessing`
lock is free nothing is mid-execution.  Since an action is only invoked by
`processQueueStart` — which requires the lock free, hence nothing in flight —
or by the loop continuation after the previous action settled, action
executions of the same queue instance never overlap. -/
theorem serial_execution_guard {cfg : Config} {w : QueueWorld}
    (h : Reachable cfg w) :
    w.executing.length ≤ 1 ∧ (w.state.isProcessing = false → w.executing = []) :=
  procInv_reachable h

/-- Witness: the serial-execution invariant applied at the initial world. -/
theorem serial_execution_guard_witness :
    init.executing.length ≤ 1 ∧
      (init.state.isProcessing = false → init.executing = []) :=
  @serial_execution_guard defaultConfig init ⟨[], rfl⟩

/-- C7: the derived accessors compute `pendingCount = queue.length`,
`hasErrors ↔ errors ≠ []` and `isIdle ↔ (¬isProcessing ∧ queue = [])`; in a
reachable world that is idle and has no pending debounce timer (all
submitted operations have completed), every continuation without new
submissions keeps `isIdle` true; and the benign completion of the last
pending operation establishes `isIdle`. -/
theorem derived_state_and_idle_persistence :
    (∀ w : QueueWorld,
      pending w = w.state.queue.length ∧
      (hasErrors w = true ↔ w.state.errors ≠ []) ∧
      (isIdle w = true ↔ (w.state.isProcessing = false ∧ w.state.queue = []))) ∧
    (∀ (cfg : Config) (w : QueueWorld), Reachable cfg w → isIdle w = true →
      w.debounceTimers = [] →
      ∀ (es : List Ev) (w' : QueueWorld), (∀ e ∈ es, e.isSubmitEv = false) →
        run cfg w es = some w' → isIdle w' = true) ∧
    ∀ (cfg : Config) (w : QueueWorld) (op : QueuedOperation),
      w.executing = [op] → w.state.queue.drop 1 = [] → benign op = true →
      ∀ w', processQueueResume cfg w = some w' → isIdle w' = true := by
  refine ⟨?_, ?_, ?_⟩
  · intro w
    refine ⟨rfl, ?_, ?_⟩
    · simp [hasErrors, List.length_pos]
    · simp [isIdle, List.length_eq_zero, Bool.and_eq_true, Bool.not_eq_true']
  · intro cfg w hreach hidle ht es w' hE hr
    have hinv := procInv_reachable hreach
    have hi : w.state.isProcessing = false ∧ w.state.queue = [] := by
      simpa [isIdle, List.length_eq_zero, Bool.and_eq_true, Bool.not_eq_true']
        using hidle
    exact isIdle_of_idleQuiet (idleQuiet_run ⟨hi.2, ht, hi.1, hinv.2 hi.1⟩ hE hr)
  · intro cfg w op hex hdrop hb w' hw'
    rw [processQueueResume_cons hex] at hw'
    injection hw' with hw'
    subst hw'
    obtain ⟨w1, heq, hw1q, hw1p, hw1l⟩ := resumeOp_benign_eq cfg (r := []) hb
    rw [heq]
    have hdrop1 : w1.state.queue.drop 1 = [] := by rw [hw1q]; exact hdrop
    rw [finishIteration_nil_eq hdrop1]
    simp [isIdle]

/-- Witness: the derived-state equations and idle persistence applied at the
initial world (with the empty continuation). -/
theorem derived_state_and_idle_persistence_witness :
    pending init = init.state.queue.length ∧ isIdle init = true :=
  ⟨(derived_state_and_idle_persistence.1 init).1,
   derived_state_and_idle_persistence.2.1 defaultConfig init ⟨[], rfl⟩ (by decide)
     rfl [] init (fun e he => absurd he (List.not_mem_nil e)) rfl⟩

/-- C8 counterexample: op 9's action fulfills, its `onSuccess` throws 5 and
its `onError` throws 6.  The escaping exception skips the `state.errors`
update, so no record with id 9 is ever added (`errors` stays `[]`) even
though `onError` received the thrown value — refuting the unconditional
claim that a record is added whenever `onSuccess` throws. -/
theorem onSuccess_throw_counterexample :
    (run defaultConfig init [.submit c8bad false, .complete]).map
      (fun w => (w.state.errors, w.successLog, w.errorLog, w.state.isProcessing,
        w.state.lastProcessed)) = some ([], [9], [(9, 5)], true, (none : Option Nat)) := by
  rfl

/-- C8 amended: when an action fulfills but its `onSuccess` callback throws,
the `try` block aborts before `state.lastProcessed = operation.id` runs and
control reaches the `catch` block, so — provided the operation's `onError`
does not itself throw — the thrown value is passed to `onError` (when
present), an error record with the operation's id is prepended to the
history, and `lastProcessed` is left unchanged even though the action itself
succeeded.  (When `onError` also throws, the exception escapes and no record
is added — the counterexample.) -/
theorem onSuccess_throw_marks_failed {cfg : Config} {w : QueueWorld}
    {op : QueuedOperation} {r : List QueuedOperation} {v : Nat}
    (hex : w.executing = op :: r) (hres : op.result = .ok)
    (hsu : op.onSuccess = some (.raise v)) (hoe : onErrorRaises op = false) :
    (processQueueResume cfg w).isSome = true ∧
    ∀ w', processQueueResume cfg w = some w' →
      w'.successLog = w.successLog ++ [op.id] ∧
      w'.state.errors =
        ⟨op.id, v, w.now⟩ :: jsSliceEnd w.state.errors (cfg.maxErrors - 1) ∧
      (op.onError = some .ret → w'.errorLog = w.errorLog ++ [(op.id, v)]) ∧
      w'.state.lastProcessed = w.state.lastProcessed ∧
      w'.state.queue = w.state.queue.drop 1 := by
  constructor
  · rw [processQueueResume_cons hex]
    rfl
  · intro w' hw'
    rw [processQueueResume_cons hex] at hw'
    injection hw' with hw'
    subst hw'
    rw [resumeOp_ok_raise_eq hres hsu]
    cases hoe2 : op.onError with
    | none =>
      rw [handleCatch_none_eq hoe2]
      refine ⟨?_, ?_, ?_, ?_, ?_⟩
      · rw [finishIteration_successLog]
      · rw [finishIteration_errors]
      · intro hcontr
        cases hcontr
      · rw [finishIteration_lastProcessed]
      · rw [finishIteration_queue]
    | some cb =>
      cases cb with
      | ret =>
        rw [handleCatch_ret_eq hoe2]
        refine ⟨?_, ?_, ?_, ?_, ?_⟩
        · rw [finishIteration_successLog]
        · rw [finishIteration_errors]
        · intro hh
          rw [finishIteration_errorLog]
        · rw [finishIteration_lastProcessed]
        · rw [finishIteration_queue]
      | raise u => simp [onErrorRaises, hoe2] at hoe

/-- Witness: the amended C8 theorem at `c8w` — op 9 fulfilled, `onSuccess`
threw, and the operation is recorded as failed with `lastProcessed` still
`null`. -/
theorem onSuccess_throw_marks_failed_witness :
    (processQueueResume defaultConfig c8w).isSome = true ∧
    (resumeOp defaultConfig c8w c8goodFull []).state.lastProcessed = none :=
  have h := @onSuccess_throw_marks_failed defaultConfig c8w c8goodFull [] 5
    rfl rfl rfl rfl
  ⟨h.1, by
    have h2 := (h.2 (resumeOp defaultConfig c8w c8goodFull []) rfl).2.2.2.1
    exact h2.trans rfl⟩

/-- C9: with `maxErrors: 0`, `MAX_ERRORS - 1 = -1` makes
`errors.slice(0, -1)` drop only the *last* entry, so the prepend never leaves
the history empty: in every reachable world it holds at most one entry, and a
failing completion (with well-behaved `onError`) leaves exactly the single
most recent record — the configured cap of 0 effectively behaves as 1. -/
theorem maxErrors_zero_keeps_one {cfg : Config} {w : QueueWorld}
    (hm : cfg.maxErrors = 0) (h : Reachable cfg w) :
    w.state.errors.length ≤ 1 ∧
    ∀ (op : QueuedOperation) (r : List QueuedOperation) (v : Nat),
      w.executing = op :: r → op.result = .err v → onErrorRaises op = false →
      ∀ w', processQueueResume cfg w = some w' →
        w'.state.errors = [⟨op.id, v, w.now⟩] := by
  have hb : w.state.errors.length ≤ max cfg.maxErrors.toNat 1 := errBound_reachable h
  have hlen : w.state.errors.length ≤ 1 := by
    rw [hm] at hb
    simpa using hb
  refine ⟨hlen, ?_⟩
  intro op r v hex hres hoe w' hw'
  rw [processQueueResume_cons hex] at hw'
  injection hw' with hw'
  subst hw'
  rw [resumeOp_err_eq hres]
  have hslice : jsSliceEnd w.state.errors (cfg.maxErrors - 1) = [] := by
    rw [hm]
    exact jsSliceEnd_neg_one_of_le_one _ hlen
  cases hoe2 : op.onError with
  | none =>
    rw [handleCatch_none_eq hoe2, finishIteration_errors]
    show ⟨op.id, v, w.now⟩ :: jsSliceEnd w.state.errors (cfg.maxErrors - 1) = _
    rw [hslice]
  | some cb =>
    cases cb with
    | ret =>
      rw [handleCatch_ret_eq hoe2, finishIteration_errors]
      show ⟨op.id, v, w.now⟩ :: jsSliceEnd w.state.errors (cfg.maxErrors - 1) = _
      rw [hslice]
    | raise u => simp [onErrorRaises, hoe2] at hoe

/-- Witness: the C9 theorem at the concrete `maxErrors := 0` world with the
failing op 1: afterwards the history is exactly the one record. -/
theorem maxErrors_zero_keeps_one_witness :
    c9w.state.errors.length ≤ 1 ∧
    (resumeOp cap0Config c9w c9opFull []).state.errors = [⟨1, 7, 0⟩] :=
  have h := @maxErrors_zero_keeps_one cap0Config c9w rfl
    ⟨[.submit c9op false], rfl⟩
  ⟨h.1, h.2 c9opFull [] 7 rfl rfl rfl (resumeOp cap0Config c9w c9opFull []) rfl⟩

/-- C10: when a rejecting operation's `onError` callback itself throws, the
exception escapes the `catch` block: the loop dies after the `onError`
invocation but before the `state.errors` update and before
`state.queue = state.queue.slice(1)`, so the failing operation stays in the
queue, no error record is appended, and `isProcessing` is never reset.  From
then on, along every continuation — even new submissions — the re-entrancy
guard blocks processing: `isProcessing` stays true and no action is ever
invoked again. -/
theorem onError_throw_stalls_queue {cfg : Config} {w : QueueWorld}
    {op : QueuedOperation} {v u : Nat}
    (hex : w.executing = [op]) (hres : op.result = .err v)
    (hoe : op.onError = some (.raise u)) (hp : w.state.isProcessing = true) :
    ∀ w', processQueueResume cfg w = some w' →
      w'.state.queue = w.state.queue ∧ w'.state.errors = w.state.errors ∧
      w'.errorLog = w.errorLog ++ [(op.id, v)] ∧
      w'.state.isProcessing = true ∧ w'.executing = [] ∧
      ∀ (es : List Ev) (w2 : QueueWorld), run cfg w' es = some w2 →
        w2.state.isProcessing = true ∧ w2.execLog = w'.execLog := by
  intro w' hw'
  rw [processQueueResume_cons hex] at hw'
  injection hw' with hw'
  subst hw'
  rw [resumeOp_err_eq hres, handleCatch_raise_eq hoe]
  refine ⟨rfl, rfl, rfl, hp, rfl, ?_⟩
  intro es w2 hrun
  have hSt : Stalled { w with errorLog := w.errorLog ++ [(op.id, v)], executing := [] } :=
    ⟨hp, rfl⟩
  have hst := stalled_run hSt hrun
  exact ⟨hst.1.1, hst.2⟩

/-- Witness: the C10 theorem at the concrete stalling world, continued with a
`flush()` call that can no longer restart the loop. -/
theorem onError_throw_stalls_queue_witness :
    (resumeOp defaultConfig c10w c10opFull []).state.isProcessing = true ∧
    (flush (resumeOp defaultConfig c10w c10opFull [])).execLog =
      (resumeOp defaultConfig c10w c10opFull []).execLog :=
  have h := @onError_throw_stalls_queue defaultConfig c10w c10opFull 4 9
    rfl rfl rfl rfl (resumeOp defaultConfig c10w c10opFull []) rfl
  ⟨h.2.2.2.1,
   (h.2.2.2.2.2 [.flushAll]
     (flush (resumeOp defaultConfig c10w c10opFull [])) rfl).2⟩

/-- C4 counterexample: on a `maxErrors: 0` queue, op 1 fails with a
well-behaved `onError` — afterwards the error history holds 1 entry, which
already exceeds the configured cap of 0 — and then op 2 fails with a throwing
`onError`, killing the loop: op 3, still queued, is never executed
(`execLog = [1, 2]`, `isProcessing` stuck at `true`, nothing mid-flight). -/
theorem error_cap_counterexample :
    (run cap0Config init c4evs).map
      (fun w => (w.state.errors.length, w.state.isProcessing, w.executing,
        w.execLog, w.state.queue.map (fun o => o.id))) =
      some (1, true, [], [1, 2], [2, 3]) ∧ (1 : Int) > cap0Config.maxErrors := by
  decide

/-- C4 amended: for an operation whose action rejects and whose `onError`
does not itself throw, the failure is contained in the loop: `onError` (when
present) is invoked with the failure value, the record `{id, error,
timestamp}` is prepended with `slice(0, MAX_ERRORS - 1)` eviction
(most-recent-first, oldest evicted), the operation is removed and the loop
continues with the next front operation; the error history's length never
exceeds `max maxErrors 1` (a cap of 0 still keeps one entry — C9); and when
no further events interleave, every loop-friendly operation queued behind
the failing one still executes before the queue drains.  Unconditional
containment and the bare `maxErrors` cap are refuted by the
counterexample. -/
theorem error_containment_amended :
    (∀ (cfg : Config) (w : QueueWorld) (op : QueuedOperation)
        (r : List QueuedOperation) (v : Nat),
      w.executing = op :: r → op.result = .err v → onErrorRaises op = false →
      (processQueueResume cfg w).isSome = true ∧
      ∀ w', processQueueResume cfg w = some w' →
        w'.state.errors =
          ⟨op.id, v, w.now⟩ :: jsSliceEnd w.state.errors (cfg.maxErrors - 1) ∧
        (op.onError = some .ret → w'.errorLog = w.errorLog ++ [(op.id, v)]) ∧
        w'.state.queue = w.state.queue.drop 1 ∧
        w'.state.lastProcessed = w.state.lastProcessed ∧
        (w.state.queue.drop 1 = [] →
          w'.state.isProcessing = false ∧ w'.executing = r) ∧
        (∀ next rest2, w.state.queue.drop 1 = next :: rest2 →
          w'.executing = next :: r ∧ w'.execLog = w.execLog ++ [next.id])) ∧
    (∀ (cfg : Config) (w : QueueWorld), Reachable cfg w →
      w.state.errors.length ≤ max cfg.maxErrors.toNat 1) ∧
    ∀ (cfg : Config) (w : QueueWorld) (op : QueuedOperation)
        (rest : List QueuedOperation),
      w.state.queue = op :: rest → w.executing = [op] →
      w.state.isProcessing = true → (∀ o ∈ w.state.queue, benign o = true) →
      ∃ w', run cfg w (List.replicate (op :: rest).length .complete) = some w' ∧
        w'.state.queue = [] ∧ w'.state.isProcessing = false ∧
        ∀ o ∈ rest, o.id ∈ w'.execLog := by
  refine ⟨?_, ?_, ?_⟩
  · intro cfg w op r v hex hres hoe
    constructor
    · rw [processQueueResume_cons hex]
      rfl
    · intro w' hw'
      rw [processQueueResume_cons hex] at hw'
      injection hw' with hw'
      subst hw'
      rw [resumeOp_err_eq hres]
      cases hoe2 : op.onError with
      | none =>
        rw [handleCatch_none_eq hoe2]
        refine ⟨?_, ?_, ?_, ?_, ?_, ?_⟩
        · rw [finishIteration_errors]
        · intro hcontr
          cases hcontr
        · rw [finishIteration_queue]
        · rw [finishIteration_lastProcessed]
        · intro hdrop
          rw [finishIteration_nil_eq (by exact hdrop)]
          exact ⟨rfl, rfl⟩
        · intro next rest2 hdrop
          rw [finishIteration_cons_eq (by exact hdrop)]
          exact ⟨rfl, rfl⟩
      | some cb =>
        cases cb with
        | ret =>
          rw [handleCatch_ret_eq hoe2]
          refine ⟨?_, ?_, ?_, ?_, ?_, ?_⟩
          · rw [finishIteration_errors]
          · intro hh
            rw [finishIteration_errorLog]
          · rw [finishIteration_queue]
          · rw [finishIteration_lastProcessed]
          · intro hdrop
            rw [finishIteration_nil_eq (by exact hdrop)]
            exact ⟨rfl, rfl⟩
          · intro next rest2 hdrop
            rw [finishIteration_cons_eq (by exact hdrop)]
            exact ⟨rfl, rfl⟩
        | raise u => simp [onErrorRaises, hoe2] at hoe
  · intro cfg w h
    exact errBound_reachable h
  · intro cfg w op rest hq hex hp hben
    obtain ⟨w', h1, h2, h3, h4, h5, h6⟩ := drain_benign rest op w hq hex hp hben
    exact ⟨w', h1, h2, h3, h6⟩

/-- Witness: the amended C4 theorem applied concretely — the cap bound at the
initial world and the contained failing completion at `c4w`. -/
theorem error_containment_amended_witness :
    init.state.errors.length ≤ max defaultConfig.maxErrors.toNat 1 ∧
    (processQueueResume cap0Config c4w).isSome = true :=
  ⟨error_containment_amended.2.1 defaultConfig init ⟨[], rfl⟩,
   (error_containment_amended.1 cap0Config c4w c4e1Full [] 5 rfl rfl rfl).1⟩

/-- C6: `cancelAll()` clears every debounce timer and empties the pending
queue in every world; in particular, after submitting a debounced operation
whose id occurs nowhere else and calling `cancelAll` before its timer fires,
`pendingCount` is 0, and along every continuation without new submissions it
stays 0 while the cancelled operation's action is never executed and its
`onSuccess`/`onError` are never invoked. -/
theorem cancelAll_clears_and_silences :
    (∀ w0 : QueueWorld, (cancelAll w0).debounceTimers = [] ∧
      (cancelAll w0).state.queue = [] ∧ pending (cancelAll w0) = 0) ∧
    ∀ (cfg : Config) (w : QueueWorld) (op : QueuedOperation),
      neverTouched w op.id →
      ∀ w2, run cfg w [.submit op true, .cancelAllOps] = some w2 →
        w2.debounceTimers = [] ∧ w2.state.queue = [] ∧ pending w2 = 0 ∧
        ∀ (es : List Ev) (w3 : QueueWorld), (∀ e ∈ es, e.isSubmitEv = false) →
          run cfg w2 es = some w3 →
          pending w3 = 0 ∧ op.id ∉ w3.execLog ∧ op.id ∉ w3.successLog ∧
            ∀ v, (op.id, v) ∉ w3.errorLog := by
  constructor
  · intro w0
    exact ⟨rfl, rfl, rfl⟩
  · intro cfg w op hnt w2 hrun
    have heval : run cfg w [.submit op true, .cancelAllOps] =
        some (cancelAll (enqueue cfg w op true)) := rfl
    rw [heval] at hrun
    injection hrun with hrun
    subst hrun
    refine ⟨rfl, rfl, rfl, ?_⟩
    intro es w3 hE hr3
    have hdr : Drained (cancelAll (enqueue cfg w op true)) := ⟨rfl, rfl⟩
    have hnt2 : neverTouched (cancelAll (enqueue cfg w op true)) op.id := by
      obtain ⟨⟨hq, hx, ht⟩, he, hsu, her⟩ := hnt
      exact ⟨⟨by simp [cancelAll], hx, by simp [cancelAll]⟩, he, hsu, her⟩
    have hd3 := drained_run hdr hE hr3
    have hn3 := neverTouched_run hnt2
      (fun e he => evAvoids_of_not_submit (hE e he)) hr3
    refine ⟨?_, hn3.2.1, hn3.2.2.1, hn3.2.2.2⟩
    show w3.state.queue.length = 0
    rw [hd3.1]
    rfl

/-- Witness: the C6 theorem at the concrete scenario — a debounced autosave
(id 5) submitted on a fresh queue, `cancelAll`, then 2000 ms pass and
`flush()` is called: pending stays 0 and the cancelled operation never
ran. -/
theorem cancelAll_clears_and_silences_witness :
    (cancelAll init).debounceTimers = [] ∧ c6w2.state.queue = [] ∧
    pending c6w3 = 0 ∧ (5 : Nat) ∉ c6w3.execLog ∧ (5 : Nat) ∉ c6w3.successLog :=
  have h2 := cancelAll_clears_and_silences.2 defaultConfig init c6op
    (by simp [neverTouched, idFresh, init]) c6w2 rfl
  have h3 := h2.2.2.2 [.tick 2000, .flushAll] c6w3 (by decide) rfl
  ⟨(cancelAll_clears_and_silences.1 init).1, h2.2.1, h3.1, h3.2.1, h3.2.2.1⟩

/-- C3: debounced same-kind submissions within the debounce window coalesce
to the last one.  Submitting `d1`, then `d2` after `a < debounceMs`, then
`d3` after another `b < debounceMs` (all of `d3`'s kind, ids fresh and
distinct): at each later submission the previous timer's deadline has not
been reached, so it cannot have fired; after the three submissions the
kind's single timer slot holds exactly the enriched `d3` with deadline one
debounce interval after the last submission, the queue and action log are
untouched, and `d1`/`d2` occur nowhere in the world — so along every
continuation that does not resubmit their ids their actions never execute
and their callbacks are never invoked; finally, once the interval elapses
and the timer fires, exactly one operation with `d3`'s id is inserted into
the pending queue and the timer slot is cleared. -/
theorem debounce_coalesces_to_last (cfg : Config) (w0 : QueueWorld)
    (d1 d2 d3 : QueuedOperation) (a b : Nat)
    (hk1 : d1.type = d3.type) (hk2 : d2.type = d3.type)
    (ha : a < cfg.debounceMs) (hb : b < cfg.debounceMs)
    (hn1 : neverTouched w0 d1.id) (hn2 : neverTouched w0 d2.id)
    (hf3 : idFresh w0 d3.id)
    (h31 : d3.id ≠ d1.id) (h32 : d3.id ≠ d2.id) :
    (∀ w2, run cfg w0 [.submit d1 true, .tick a] = some w2 →
      fireTimer w2 d3.type = none) ∧
    (∀ w4, run cfg w0 [.submit d1 true, .tick a, .submit d2 true, .tick b] =
        some w4 → fireTimer w4 d3.type = none) ∧
    ∀ w5, run cfg w0 [.submit d1 true, .tick a, .submit d2 true, .tick b,
        .submit d3 true] = some w5 →
      timersGet w5.debounceTimers d3.type =
        some ({ d3 with createdAt := w0.now + a + b,
                        priority := some (priorityOf d3) },
          w0.now + a + b + cfg.debounceMs) ∧
      w5.state.queue = w0.state.queue ∧ w5.execLog = w0.execLog ∧
      neverTouched w5 d1.id ∧ neverTouched w5 d2.id ∧
      (∀ (es : List Ev) (w' : QueueWorld),
        (∀ e ∈ es, EvAvoids d1.id e ∧ EvAvoids d2.id e) →
        run cfg w5 es = some w' →
        (d1.id ∉ w'.execLog ∧ d1.id ∉ w'.successLog ∧
          ∀ v, (d1.id, v) ∉ w'.errorLog) ∧
        (d2.id ∉ w'.execLog ∧ d2.id ∉ w'.successLog ∧
          ∀ v, (d2.id, v) ∉ w'.errorLog)) ∧
      ∀ w6, run cfg w5 [.tick cfg.debounceMs, .timerFire d3.type] = some w6 →
        w6.state.queue.countP (fun o => o.id == d3.id) = 1 ∧
        timersGet w6.debounceTimers d3.type = none := by
  refine ⟨?_, ?_, ?_⟩
  · intro w2 h2
    have he2 : run cfg w0 [.submit d1 true, .tick a] = some
        { w0 with
          debounceTimers := timersSet w0.debounceTimers d1.type
            ({ d1 with createdAt := w0.now, priority := some (priorityOf d1) },
              w0.now + cfg.debounceMs)
          now := w0.now + a } := rfl
    rw [he2] at h2
    injection h2 with h2
    subst h2
    rw [← hk1]
    exact fireTimer_none_of_early (timersGet_set _ _ _) (by simp; omega)
  · intro w4 h4
    have he4 : run cfg w0 [.submit d1 true, .tick a, .submit d2 true, .tick b] =
        some
        { w0 with
          debounceTimers := timersSet
            (timersSet w0.debounceTimers d1.type
              ({ d1 with createdAt := w0.now, priority := some (priorityOf d1) },
                w0.now + cfg.debounceMs))
            d2.type
            ({ d2 with createdAt := w0.now + a, priority := some (priorityOf d2) },
              w0.now + a + cfg.debounceMs)
          now := w0.now + a + b } := rfl
    rw [he4] at h4
    injection h4 with h4
    subst h4
    rw [← hk2]
    exact fireTimer_none_of_early (timersGet_set _ _ _) (by simp; omega)
  · intro w5 h5
    have he5 : run cfg w0 [.submit d1 true, .tick a, .submit d2 true, .tick b,
        .submit d3 true] = some
        { w0 with
          debounceTimers := timersSet
            (timersSet
              (timersSet w0.debounceTimers d1.type
                ({ d1 with createdAt := w0.now, priority := some (priorityOf d1) },
                  w0.now + cfg.debounceMs))
              d2.type
              ({ d2 with createdAt := w0.now + a, priority := some (priorityOf d2) },
                w0.now + a + cfg.debounceMs))
            d3.type
            ({ d3 with createdAt := w0.now + a + b, priority := some (priorityOf d3) },
              w0.now + a + b + cfg.debounceMs)
          now := w0.now + a + b } := rfl
    rw [he5] at h5
    injection h5 with h5
    subst h5
    have hcoll : timersSet
        (timersSet
          (timersSet w0.debounceTimers d1.type
            ({ d1 with createdAt := w0.now, priority := some (priorityOf d1) },
              w0.now + cfg.debounceMs))
          d2.type
          ({ d2 with createdAt := w0.now + a, priority := some (priorityOf d2) },
            w0.now + a + cfg.debounceMs))
        d3.type
        ({ d3 with createdAt := w0.now + a + b, priority := some (priorityOf d3) },
          w0.now + a + b + cfg.debounceMs) =
        timersSet w0.debounceTimers d3.type
          ({ d3 with createdAt := w0.now + a + b, priority := some (priorityOf d3) },
            w0.now + a + b + cfg.debounceMs) := by
      rw [hk1, hk2, timersSet_set, timersSet_set]
    have hw5n1 : neverTouched
        { w0 with
          debounceTimers := timersSet
            (timersSet
              (timersSet w0.debounceTimers d1.type
                ({ d1 with createdAt := w0.now, priority := some (priorityOf d1) },
                  w0.now + cfg.debounceMs))
              d2.type
              ({ d2 with createdAt := w0.now + a, priority := some (priorityOf d2) },
                w0.now + a + cfg.debounceMs))
            d3.type
            ({ d3 with createdAt := w0.now + a + b, priority := some (priorityOf d3) },
              w0.now + a + b + cfg.debounceMs)
          now := w0.now + a + b } d1.id := by
      obtain ⟨⟨hq1, hx1, ht1⟩, he1, hs1, her1⟩ := hn1
      refine ⟨⟨hq1, hx1, ?_⟩, he1, hs1, her1⟩
      intro e he
      have he' : e ∈ timersSet w0.debounceTimers d3.type
          ({ d3 with createdAt := w0.now + a + b, priority := some (priorityOf d3) },
            w0.now + a + b + cfg.debounceMs) := by
        rw [← hcoll]
        exact he
      rcases mem_timersSet he' with hm | hm
      · exact ht1 e hm
      · subst hm
        exact h31
    have hw5n2 : neverTouched
        { w0 with
          debounceTimers := timersSet
            (timersSet
              (timersSet w0.debounceTimers d1.type
                ({ d1 with createdAt := w0.now, priority := some (priorityOf d1) },
                  w0.now + cfg.debounceMs))
              d2.type
              ({ d2 with createdAt := w0.now + a, priority := some (priorityOf d2) },
                w0.now + a + cfg.debounceMs))
            d3.type
            ({ d3 with createdAt := w0.now + a + b, priority := some (priorityOf d3) },
              w0.now + a + b + cfg.debounceMs)
          now := w0.now + a + b } d2.id := by
      obtain ⟨⟨hq2, hx2, ht2⟩, he2, hs2, her2⟩ := hn2
      refine ⟨⟨hq2, hx2, ?_⟩, he2, hs2, her2⟩
      intro e he
      have he' : e ∈ timersSet w0.debounceTimers d3.type
          ({ d3 with createdAt := w0.now + a + b, priority := some (priorityOf d3) },
            w0.now + a + b + cfg.debounceMs) := by
        rw [← hcoll]
        exact he
      rcases mem_timersSet he' with hm | hm
      · exact ht2 e hm
      · subst hm
        exact h32
    refine ⟨timersGet_set _ _ _, rfl, rfl, hw5n1, hw5n2, ?_, ?_⟩
    · intro es w' hEs hrun'
      have r1 := neverTouched_run hw5n1 (fun e he => (hEs e he).1) hrun'
      have r2 := neverTouched_run hw5n2 (fun e he => (hEs e he).2) hrun'
      exact ⟨⟨r1.2.1, r1.2.2.1, r1.2.2.2⟩, ⟨r2.2.1, r2.2.2.1, r2.2.2.2⟩⟩
    · intro w6 h6
      have hres := tick_fire_inserts (timersGet_set _ _ _)
        (show ¬ w0.now + a + b + cfg.debounceMs <
          w0.now + a + b + cfg.debounceMs by omega) w6 h6
      have hzero : (w0.state.queue.countP (fun o => o.id == d3.id)) = 0 := by
        rw [List.countP_eq_zero]
        intro o ho
        simpa using hf3.1 o ho
      constructor
      · have h1 : w6.state.queue.countP (fun o => o.id == d3.id) =
            w0.state.queue.countP (fun o => o.id == d3.id) + 1 := by
          have hcount := hres.1 (fun o => o.id == d3.id)
          rw [hcount]
          simp
        rw [h1, hzero]
      · exact hres.2

/-- Witness: the C3 theorem at the concrete scenario — three debounced
autosaves (ids 1, 2, 3) 10 ms apart on a fresh queue with the default
1500 ms interval; after the interval elapses and the timer fires, exactly
one pending operation has id 3, the slot is empty, and ids 1 and 2 were
never executed. -/
theorem debounce_coalesces_to_last_witness :
    c3w6.state.queue.countP (fun o => o.id == 3) = 1 ∧
    timersGet c3w6.debounceTimers .autosave = none ∧
    (1 : Nat) ∉ c3w5.execLog ∧ (2 : Nat) ∉ c3w5.execLog :=
  have h := debounce_coalesces_to_last defaultConfig init (c3op 1) (c3op 2)
    (c3op 3) 10 10 rfl rfl (by decide) (by decide)
    (by simp [neverTouched, idFresh, init]) (by simp [neverTouched, idFresh, init])
    (by simp [idFresh, init]) (by decide) (by decide)
  have h5 := h.2.2 c3w5 rfl
  have h6 := h5.2.2.2.2.2.2 c3w6 rfl
  ⟨h6.1, h6.2, h5.2.2.2.1.2.1, h5.2.2.2.2.1.2.1⟩

end TinylandComposables
